import Mathlib

/-!
Verification development for the `op` operator-overloading expression language
(tokenizer, precedence parser, evaluator of `src/index.ts`, richer second
generation with unary / bracket operators and static-method fallback).

The TypeScript source is embedded shallowly: the mutable lexer cursor becomes
explicit state passing, JS exceptions become `Except String`, JS numbers become
`ℚ` (the claims under study never depend on binary floating point), and the
opaque host values ("holes") become a type parameter `ω` together with a `Host`
structure carrying the instance-method table, the static-method table of each
value's class, and the display conversion used by error messages.
-/

set_option maxHeartbeats 1000000
set_option maxRecDepth 4000

namespace OpLang

/-- Modelled from the spec: `isNumber` lives in the repository's `utils.ts`,
which is not under `src/`; §4.2 step 6 says a character is numeric when it is
a digit or the decimal point. -/
def isNumber (c : Char) : Bool := c.isDigit || c = '.'

/-- `c.trim() === ''` for a single character: the character is JS whitespace. -/
def isJsSpace (c : Char) : Bool :=
  c = ' ' || c = '\t' || c = '\n' || c = '\r' || c = '\x0b' || c = '\x0c'

/-- Number of leading whitespace characters: models the lexer's
`while (strs[strIdx][charIdx].trim() === '') charIdx++` skip. -/
def wsCount : List Char → ℕ
  | [] => 0
  | c :: rest => if isJsSpace c then wsCount rest + 1 else 0

/-- The maximal scanned digit run: models the lexer's
`while (char !== undefined && char.trim() !== '' && isNumber(char))` loop. -/
def numRun : List Char → List Char
  | [] => []
  | c :: rest => if !isJsSpace c && isNumber c then c :: numRun rest else []

/-- Scan a string literal body up to the closing quote inside one fragment:
models the `while (strs[strIdx][charIdx] !== quote)` loop. -/
def strScan (quote : Char) : List Char → Except String (List Char)
  | [] => .error "Syntax error: unterminated string literal"
  | c :: rest =>
    if c = quote then .ok []
    else (strScan quote rest).map (fun s => c :: s)

/-- Numeric value of a decimal digit character. -/
def digitVal (c : Char) : ℕ := c.toNat - 48

/-- Decimal digit character of a value below ten. -/
def digitChar (n : ℕ) : Char := Char.ofNat (48 + n)

/-- Value of a digit list read left to right, as JS `Number` reads the integer
or fraction part of a numeral. -/
def natFromDigits (l : List Char) : ℕ := l.foldl (fun a c => 10 * a + digitVal c) 0

/-- Decimal digits of `n`, least significant first; the fuel bounds the loop
(`n` itself is always enough fuel). -/
def natToRevDigits : ℕ → ℕ → List Char
  | 0, _ => []
  | _ + 1, 0 => []
  | fuel + 1, n => digitChar (n % 10) :: natToRevDigits fuel (n / 10)

/-- Canonical decimal rendering of a natural number. -/
def natToDigitsL (n : ℕ) : List Char :=
  if n = 0 then ['0'] else (natToRevDigits n n).reverse

/-- Fraction digits of `r / d` (most significant first), stopping when the
remainder vanishes; the fuel is irrelevant for the terminating decimals that
the lexer and evaluator actually produce. -/
def fracDigitsL : ℕ → ℕ → ℕ → List Char
  | 0, _, _ => []
  | _ + 1, 0, _ => []
  | fuel + 1, r, d => digitChar ((r * 10) / d) :: fracDigitsL fuel ((r * 10) % d) d

/-- Models the JS `Number.prototype.toString` rendering of a number whose
decimal expansion terminates (every number reachable in the claims below
does): sign, integer part, then fraction digits without trailing zeros. -/
def jsRatToStringL (q : ℚ) : List Char :=
  let sgn := if q < 0 then ['-'] else []
  let n := q.num.natAbs
  let d := q.den
  let fr := fracDigitsL 40 (n % d) d
  sgn ++ natToDigitsL (n / d) ++ (if fr.isEmpty then [] else '.' :: fr)

/-- String form of `jsRatToStringL`. -/
def jsRatToString (q : ℚ) : String := ⟨jsRatToStringL q⟩

/-- Split a character list at the first `'.'`, if any. -/
def breakDot : List Char → List Char × Option (List Char)
  | [] => ([], none)
  | c :: rest =>
    if c = '.' then ([], some rest)
    else
      let p := breakDot rest
      (c :: p.1, p.2)

/-- Models JS `Number(run)` on a scanned digit run. A run with two or more
decimal points denotes `NaN`, which `ℚ` cannot represent; such runs are never
evaluated by the claims below and are mapped to `0`. -/
def jsNum (run : List Char) : ℚ :=
  match breakDot run with
  | (ip, none) => (natFromDigits ip : ℚ)
  | (ip, some fp) =>
    if fp.contains '.' then 0
    else (natFromDigits ip : ℚ) + (natFromDigits fp : ℚ) / (10 : ℚ) ^ fp.length

/-- An operator spec after normalization: `Binary`, `Unary`, or the two-part
function/bracket form (`parts: [open, close]`). -/
inductive OpSpec where
  | bin (op : String)
  | un (op : String)
  | fn (openS closeS : String)
deriving DecidableEq, Repr

/-- `op.type === 'un'`. -/
def OpSpec.isUn : OpSpec → Bool
  | .un _ => true
  | _ => false

/-- `opName` of the source: the dispatch symbol of a spec. -/
def opName : OpSpec → String
  | .fn o c => o ++ c
  | .bin s => s
  | .un s => s

/-- A user-supplied table entry: a string is shorthand for a binary spec. -/
inductive OpIn where
  | strIn (s : String)
  | specIn (sp : OpSpec)
deriving DecidableEq, Repr

/-- `typeof op === 'string' ? { type: 'bin', op } : op`. -/
def normSpec : OpIn → OpSpec
  | .strIn s => .bin s
  | .specIn sp => sp

/-- `op.type === 'fn' ? op.parts.includes(sym) : op.op === sym`. -/
def mentionsSym (sp : OpSpec) (sym : String) : Bool :=
  match sp with
  | .fn o c => o = sym || c = sym
  | .bin s => s = sym
  | .un s => s = sym

/-- `out.at(-1).push(sp)`: append a spec to the last tier. -/
def pushLast : List (List OpSpec) → OpSpec → List (List OpSpec)
  | [], _ => []
  | [t], sp => [t ++ [sp]]
  | t :: rest, sp => t :: pushLast rest sp

/-- `processOps` of the source: reject a table with no specs, normalize the
string shorthand, then append a synthetic spec to the lowest tier for each of
`'('`, `')'`, `','` that no declared spec mentions. -/
def processOps (ops : List (List OpIn)) : Except String (List (List OpSpec)) :=
  if ops.length = 0 ∨ ¬ ops.any (fun tier => tier.length ≠ 0) then
    .error "No operators supplied"
  else
    let out := ops.map (fun tier => tier.map normSpec)
    let all := out.flatten
    let out := if all.any (fun sp => mentionsSym sp "(") then out else pushLast out (.un "(")
    let out := if all.any (fun sp => mentionsSym sp ")") then out else pushLast out (.un ")")
    let out := if all.any (fun sp => mentionsSym sp ",") then out else pushLast out (.un ",")
    .ok out

/-- A runtime value: JS string, number, composite host object, array, or
`undefined`. -/
inductive Val (ω : Type) where
  | str (s : String)
  | num (q : ℚ)
  | obj (o : ω)
  | arr (elems : List (Val ω))
  | undefined

/-- The host interface of the opaque composite values: instance operator
methods (`op in obj`), the static operator functions of the object's class
(`op in obj.constructor`), and the display conversion chain used by
`toErrorDisplay`. -/
structure Host (ω : Type) where
  instM : ω → String → Option (List (Val ω) → Except String (Val ω))
  statM : ω → String → Option (Val ω → Val ω → Except String (Val ω))
  display : ω → String

/-- `typeof v === 'object'`. -/
def valIsObject {ω : Type} : Val ω → Bool
  | .obj _ => true
  | .arr _ => true
  | _ => false

/-- `op in v` followed by reading the method: only composite host objects
expose operator methods (primitives and plain arrays have none). -/
def instLookup {ω : Type} (h : Host ω) : Val ω → String → Option (List (Val ω) → Except String (Val ω))
  | .obj o, s => h.instM o s
  | _, _ => none

/-- `op in v.constructor`: the `Number`, `String` and `Array` constructors
declare no operator statics, so only host objects can resolve one. -/
def statLookup {ω : Type} (h : Host ω) : Val ω → String → Option (Val ω → Val ω → Except String (Val ω))
  | .obj o, s => h.statM o s
  | _, _ => none

/-- Fueled `toErrorDisplay`: a composite uses its host display conversion, a
primitive its template-literal coercion; the fuel only bounds nested arrays,
which no claim displays. -/
def toErrorDisplayF {ω : Type} : ℕ → Host ω → Val ω → String
  | _, _, .str s => s
  | _, _, .num q => jsRatToString q
  | _, h, .obj o => h.display o
  | _, _, .undefined => "undefined"
  | 0, _, .arr _ => ""
  | fuel + 1, h, .arr l => String.intercalate "," (l.map (toErrorDisplayF fuel h))

/-- `toErrorDisplay` of the source. -/
def toErrorDisplay {ω : Type} (h : Host ω) (v : Val ω) : String := toErrorDisplayF 100 h v

/-- A token: literal (hole value, string or numeric literal, or `undefined`
for end of input) or an operator token with its spec and matched text. -/
inductive Tok (ω : Type) where
  | lit (val : Val ω)
  | opTok (spec : OpSpec) (raw : String)

/-- The lexer cursor `(strIdx, charIdx)`. -/
structure Cursor where
  strIdx : ℕ
  charIdx : ℕ
deriving DecidableEq, Repr

/-- One invocation's input: the literal fragments and the interleaved hole
values of the tagged template. -/
structure Input (ω : Type) where
  strs : List String
  vals : List (Val ω)

/-- `vals[i]`: out-of-range access yields `undefined`. -/
def holeAt {ω : Type} (inp : Input ω) (i : ℕ) : Val ω := (inp.vals[i]?).getD .undefined

/-- One spec's match attempt against the remaining input: a function spec
tries its open part then its close part; others try their symbol. -/
def specMatch (sp : OpSpec) (rest : List Char) : Option String :=
  match sp with
  | .fn o c =>
    if o.data.isPrefixOf rest then some o
    else if c.data.isPrefixOf rest then some c
    else none
  | .bin s => if s.data.isPrefixOf rest then some s else none
  | .un s => if s.data.isPrefixOf rest then some s else none

/-- The lexer's operator scan: first spec (in flattened table order) whose
symbol text is a prefix of the remaining input wins. -/
def matchOp : List OpSpec → List Char → Option (OpSpec × String)
  | [], _ => none
  | sp :: rest, input =>
    match specMatch sp input with
    | some raw => some (sp, raw)
    | none => matchOp rest input

/-- `lex()` of the source, as a pure function: returns the state after the
whitespace skip together with the peeked token (or a syntax error). -/
def lex {ω : Type} (ops : List (List OpSpec)) (inp : Input ω) (st : Cursor) :
    Except String (Cursor × Tok ω) :=
  match inp.strs[st.strIdx]? with
  | none => .ok (st, .lit .undefined)
  | some frag =>
    let ci := st.charIdx + wsCount (frag.data.drop st.charIdx)
    let st' : Cursor := ⟨st.strIdx, ci⟩
    match frag.data.drop ci with
    | [] => .ok (st', .lit (holeAt inp st.strIdx))
    | c :: rest =>
      match matchOp ops.flatten (c :: rest) with
      | some (sp, raw) => .ok (st', .opTok sp raw)
      | none =>
        if c = '\'' || c = '"' then
          match rest with
          | [] => .error "Syntax error: string literal expected"
          | _ => (strScan c rest).map (fun s => (st', .lit (.str ⟨s⟩)))
        else if isNumber c then
          .ok (st', .lit (.num (jsNum (numRun (c :: rest)))))
        else
          .error ("Syntax error: invalid token '" ++ String.singleton c ++ "'")

/-- Length of `v.toString()` for a non-string literal as `next` measures it:
numbers render canonically; a plain object gives `"[object Object]"` (15) and
`undefined` gives `"undefined"` (9), both unreachable from the parser, which
only advances past holes at end of fragment. -/
def jsToStrLen {ω : Type} : Val ω → ℕ
  | .str s => s.length
  | .num q => (jsRatToString q).length
  | .obj _ => 15
  | .arr _ => 0
  | .undefined => 9

/-- `next()` of the source: at end of the current fragment jump to the next
fragment, otherwise re-lex the peeked token and advance by its width (matched
symbol length for an operator; content length plus the two quotes for a string
literal; `toString()` length for anything else). -/
def next {ω : Type} (ops : List (List OpSpec)) (inp : Input ω) (st : Cursor) :
    Except String Cursor :=
  match inp.strs[st.strIdx]? with
  | none => .ok st
  | some frag =>
    if frag.length ≤ st.charIdx then .ok ⟨st.strIdx + 1, 0⟩
    else do
      let (st2, tok) ← lex ops inp st
      match tok with
      | .opTok _ raw => .ok ⟨st2.strIdx, st2.charIdx + raw.length⟩
      | .lit (.str s) => .ok ⟨st2.strIdx, st2.charIdx + (s.length + 2)⟩
      | .lit v => .ok ⟨st2.strIdx, st2.charIdx + jsToStrLen v⟩

/-- An AST node. The three node shapes mirror the three construction sites of
the source (`left: null` for a unary node, two subtrees for a binary chain
node, a callee value plus an argument array for a call node); the spec tag is
stored verbatim from the token that produced the node, exactly as the source
stores `tok[OP]`. -/
inductive Ast (ω : Type) where
  | lit (v : Val ω)
  | unNode (sp : OpSpec) (right : Ast ω)
  | binNode (sp : OpSpec) (left right : Ast ω)
  | callNode (sp : OpSpec) (callee : Val ω) (args : List (Ast ω))

/-- Error reserved for parser fuel exhaustion; never reached at the fuel the
pipeline uses on the inputs considered here. -/
def fuelMsg : String := "INTERNAL: fuel exhausted"

/-- Error for the spec-tag/node-shape mismatches that would crash the JS
evaluator with a TypeError (e.g. `node.right.map` on a non-array); no table
and input considered here reaches them. -/
def jsCrashMsg : String := "INTERNAL: JS TypeError"

/-- The argument-list loop of the primary parser's call branch. The `Bool`
phase distinguishes the loop-head test (`while (nextTok.type !== 'op' ||
nextTok.raw !== closing)`) from the loop body, which parses one argument at
the lowest level and then inspects the separator: `','` is consumed; a token
other than the close symbol that is neither tagged unary nor `'('` is a syntax
error; the close symbol breaks; anything else re-enters the loop unconsumed. -/
def callLoop {ω : Type} (ops : List (List OpSpec)) (inp : Input ω)
    (pTop : Cursor → Except String (Cursor × Ast ω)) (closing : String) :
    ℕ → Bool → Cursor → List (Ast ω) → Except String (Cursor × OpSpec × List (Ast ω))
  | 0, _, _, _ => .error fuelMsg
  | fuel + 1, true, st, acc => do
    let (st0, t) ← lex ops inp st
    match t with
    | .opTok sp raw =>
      if raw = closing then .ok (st0, sp, acc)
      else callLoop ops inp pTop closing fuel false st0 acc
    | .lit _ => callLoop ops inp pTop closing fuel false st0 acc
  | fuel + 1, false, st, acc => do
    let (st1, a) ← pTop st
    let (st2, t2) ← lex ops inp st1
    match t2 with
    | .opTok sp2 raw2 =>
      if raw2 = "," then do
        let st3 ← next ops inp st2
        callLoop ops inp pTop closing fuel true st3 (acc ++ [a])
      else if raw2 ≠ closing ∧ ¬ sp2.isUn ∧ raw2 ≠ "(" then
        .error ("Syntax error: expected either ',' or '" ++ closing ++ "', got '" ++ raw2 ++ "'")
      else if raw2 = closing then .ok (st2, sp2, acc ++ [a])
      else callLoop ops inp pTop closing fuel true st2 (acc ++ [a])
    | .lit _ => .error ("Syntax error: expected '" ++ closing ++ "'")

/-- The operator-chain loop of a tier parser: while the peeked token's matched
text equals the symbol of some binary spec of this tier, consume it, parse the
right operand one level down, and record `(lexed spec, right operand)`. -/
def tierChain {ω : Type} (ops : List (List OpSpec)) (inp : Input ω)
    (pSub : Cursor → Except String (Cursor × Ast ω)) (tier : List OpSpec) :
    ℕ → Cursor → List (OpSpec × Ast ω) → Except String (Cursor × List (OpSpec × Ast ω))
  | 0, _, _ => .error fuelMsg
  | fuel + 1, st, acc => do
    let (st0, t) ← lex ops inp st
    match t with
    | .opTok sp raw =>
      if tier.any (fun o => match o with | .bin s => s = raw | _ => false) then do
        let st1 ← next ops inp st0
        let (st2, r) ← pSub st1
        tierChain ops inp pSub tier fuel st2 (acc ++ [(sp, r)])
      else .ok (st0, acc)
    | .lit _ => .ok (st0, acc)

/-- The `while (clauses.length > 1)` shift/unshift fold of a tier parser:
combine the recorded chain left to right. -/
def chainFold {ω : Type} (left : Ast ω) : List (OpSpec × Ast ω) → Ast ω
  | [] => left
  | (sp, r) :: rest => chainFold (.binNode sp left r) rest

/-- The parser array of the source: level 0 is the primary parser, level `i+1`
the parser of tier `i`, and level `ops.length` (the last) the whole-expression
entry point; the primary parser recurses at the last level for groups, unary
operands and call arguments. -/
def parseLevel {ω : Type} (ops : List (List OpSpec)) (inp : Input ω) :
    ℕ → ℕ → Cursor → Except String (Cursor × Ast ω)
  | 0, _, _ => .error fuelMsg
  | fuel + 1, 0, st => do
    let (st1, tok) ← lex ops inp st
    match tok with
    | .opTok sp raw =>
      if raw = "(" then do
        let st2 ← next ops inp st1
        let (st3, expr) ← parseLevel ops inp fuel ops.length st2
        let (st4, cp) ← lex ops inp st3
        match cp with
        | .opTok _ raw2 =>
          if raw2 = ")" then do
            let st5 ← next ops inp st4
            .ok (st5, expr)
          else .error "Syntax error: unterminated '('"
        | .lit _ => .error "Syntax error: unterminated '('"
      else
        match (match sp with
               | .un _ => some sp
               | _ => ops.flatten.find? (fun o => match o with | .un s => s = raw | _ => false)) with
        | some usp => do
          let st2 ← next ops inp st1
          let (st3, expr) ← parseLevel ops inp fuel ops.length st2
          .ok (st3, .unNode usp expr)
        | none => .error "Syntax error: expected value"
    | .lit v => do
      let st2 ← next ops inp st1
      match v with
      | .undefined => .error "Syntax error: expected value"
      | _ =>
        let (st3, t2) ← lex ops inp st2
        match t2 with
        | .opTok (.fn o c) raw =>
          if raw = o then do
            let st4 ← next ops inp st3
            let (st5, spC, args) ←
              callLoop ops inp (parseLevel ops inp fuel ops.length) c fuel true st4 []
            .ok (st5, .callNode spC v args)
          else .ok (st3, .lit v)
        | _ => .ok (st3, .lit v)
  | fuel + 1, lvl + 1, st => do
    let tier := (ops[lvl]?).getD []
    let (st1, left) ← parseLevel ops inp fuel lvl st
    let (st2, t) ← lex ops inp st1
    match t with
    | .lit .undefined => do
      let st3 ← next ops inp st2
      .ok (st3, left)
    | .lit _ => .error "Syntax error: expected operator"
    | .opTok _ _ => do
      let (st4, pairs) ← tierChain ops inp (parseLevel ops inp fuel lvl) tier fuel st2 []
      .ok (st4, chainFold left pairs)

/-- Fuel ample for every input considered here. -/
def parseFuel : ℕ := 100

/-- `parsers.at(-1)()`: parse one whole expression from the start. -/
def parseTop {ω : Type} (ops : List (List OpSpec)) (inp : Input ω) :
    Except String (Cursor × Ast ω) :=
  parseLevel ops inp parseFuel ops.length ⟨0, 0⟩

/-- The parsed tree, ignoring the final cursor. -/
def parsedTree {ω : Type} (ops : List (List OpSpec)) (inp : Input ω) :
    Except String (Ast ω) :=
  (parseTop ops inp).map (fun p => p.2)

/-- `if (cond) { try { return call } catch (e) {} } fallback`: a candidate that
is present and returns normally wins; an absent or throwing candidate falls
through, its exception swallowed. -/
def attemptOr {ω : Type} (cand : Option (Except String (Val ω)))
    (fb : Except String (Val ω)) : Except String (Val ω) :=
  match cand with
  | some (.ok v) => .ok v
  | _ => fb

/-- JS `+` on string/number primitives: numeric addition when both are
numbers, string concatenation (with canonical number rendering) otherwise. -/
def jsAdd {ω : Type} : Val ω → Val ω → Option (Val ω)
  | .num a, .num b => some (.num (a + b))
  | .str a, .str b => some (.str (a ++ b))
  | .str a, .num b => some (.str (a ++ jsRatToString b))
  | .num a, .str b => some (.str (jsRatToString a ++ b))
  | _, _ => none

/-- The `node[OP].type === 'bin'` branch of `evalOps`, after both operands are
evaluated. Composite left: instance method (uncaught), else left's static
(throw swallowed), else right's static (throw swallowed), else OperatorError.
Primitive left: host `+` or numeric builtin when the primitive types fit, else
right's instance method with left as argument (throw swallowed), else right's
static (throw swallowed), else OperatorError. -/
def dispatchBin {ω : Type} (h : Host ω) (s : String) (left right : Val ω) :
    Except String (Val ω) :=
  let op := "operator" ++ s
  if valIsObject left then
    match instLookup h left op with
    | some f => f [right]
    | none =>
      attemptOr ((statLookup h left op).map (fun g => g left right))
        (attemptOr
          (if valIsObject right then (statLookup h right op).map (fun g => g left right) else none)
          (.error ("Operator error: " ++ op ++ " is not a callable on left operand " ++
            toErrorDisplay h left ++ " or a static function on either operand's types")))
  else if s = "+" then
    match jsAdd left right with
    | some v => .ok v
    | none =>
      attemptOr ((instLookup h right op).map (fun f => f [left]))
        (attemptOr
          (if valIsObject right then (statLookup h right op).map (fun g => g left right) else none)
          (.error ("Operator error: cannot evaluate " ++ toErrorDisplay h left ++ " + " ++
            toErrorDisplay h right)))
  else if s = "-" ∨ s = "*" ∨ s = "/" then
    match left, right with
    | .num a, .num b =>
      .ok (.num (if s = "-" then a - b else if s = "*" then a * b else a / b))
    | _, _ =>
      attemptOr ((instLookup h right op).map (fun f => f [left]))
        (attemptOr
          (if valIsObject right then (statLookup h right op).map (fun g => g left right) else none)
          (.error ("Operator error: cannot evaluate " ++ toErrorDisplay h left ++ " " ++ s ++
            " " ++ toErrorDisplay h right)))
  else
    .error ("Operator error: " ++ op ++ " is not a builtin or a callable on left operand " ++
      toErrorDisplay h left)

/-- The `node[OP].type === 'un'` branch: the operand's instance operator
method, called with no arguments, else OperatorError. -/
def dispatchUn {ω : Type} (h : Host ω) (sp : OpSpec) (right : Val ω) :
    Except String (Val ω) :=
  let op := "operator" ++ opName sp
  match instLookup h right op with
  | some f => f []
  | none => .error ("Operator error: " ++ op ++ " is not a callable on " ++ toErrorDisplay h right)

/-- The call branch: the callee's instance method applied to the argument list
(uncaught), else the callee type's static applied to the callee and the
argument array (throw swallowed), else OperatorError. -/
def dispatchCall {ω : Type} (h : Host ω) (sp : OpSpec) (left : Val ω)
    (args : List (Val ω)) : Except String (Val ω) :=
  let op := "operator" ++ opName sp
  match instLookup h left op with
  | some f => f args
  | none =>
    attemptOr ((statLookup h left op).map (fun g => g left (.arr args)))
      (.error ("Operator error: " ++ op ++ " is not a callable on left operand " ++
        toErrorDisplay h left ++ " or a static function on its type"))

/-- Evaluate each argument in order, the first thrown error propagating. -/
def evalListF {ω : Type} (evalF : Ast ω → Except String (Val ω)) :
    List (Ast ω) → Except String (List (Val ω))
  | [] => .ok []
  | a :: rest => do
    let v ← evalF a
    let vs ← evalListF evalF rest
    .ok (v :: vs)

/-- `evalOps` of the source: a post-order walk dispatching on the node's spec
tag. The fuel only bounds tree depth; the shape/tag mismatch cases would crash
the JS evaluator and are unreachable for the tables and inputs here. -/
def evalOps {ω : Type} (h : Host ω) : ℕ → Ast ω → Except String (Val ω)
  | 0, _ => .error fuelMsg
  | _ + 1, .lit v => .ok v
  | fuel + 1, .binNode sp l r =>
    match sp with
    | .bin s => do
      let lv ← evalOps h fuel l
      let rv ← evalOps h fuel r
      dispatchBin h s lv rv
    | .un _ => do
      let rv ← evalOps h fuel r
      dispatchUn h sp rv
    | .fn _ _ => .error jsCrashMsg
  | fuel + 1, .unNode sp r =>
    match sp with
    | .un _ => do
      let rv ← evalOps h fuel r
      dispatchUn h sp rv
    | _ => .error jsCrashMsg
  | fuel + 1, .callNode sp callee args =>
    match sp with
    | .fn _ _ => do
      let avs ← evalListF (evalOps h fuel) args
      dispatchCall h sp callee avs
    | _ => .error jsCrashMsg

/-- Fuel ample for every tree considered here. -/
def evalFuel : ℕ := 100

/-- Evaluate a parsed tree. -/
def evalTree {ω : Type} (h : Host ω) (t : Ast ω) : Except String (Val ω) :=
  evalOps h evalFuel t

/-- The whole pipeline of `makeOp(operators)` applied to a template: process
the table, parse, evaluate. (The source processes the table once inside
`makeOp` and throws the configuration error there; observable behaviour of an
invocation is identical.) -/
def runTemplate {ω : Type} (opsIn : List (List OpIn)) (h : Host ω)
    (strs : List String) (vals : List (Val ω)) : Except String (Val ω) := do
  let ops ← processOps opsIn
  let (_, tree) ← parseTop ops ⟨strs, vals⟩
  evalTree h tree

/-- The default table passed to `makeOp` at the bottom of the source. -/
def defaultOps : List (List OpIn) :=
  [[.strIn "*", .strIn "/"],
   [.strIn "+", .strIn "-"],
   [.strIn "==", .strIn "!="],
   [.specIn (.fn "[" "]"), .specIn (.fn "(" ")"), .specIn (.un "-")]]

/-- The default table after processing: only `','` is missing, so a synthetic
`un ","` separator is appended to the lowest tier. -/
def processedDefault : List (List OpSpec) :=
  [[.bin "*", .bin "/"],
   [.bin "+", .bin "-"],
   [.bin "==", .bin "!="],
   [.fn "[" "]", .fn "(" ")", .un "-", .un ","]]

/-- Fueled Boolean equality on values (sound, used to transport kernel-checked
computations into equalities; completeness is never needed). -/
def valEqF {ω : Type} [DecidableEq ω] : ℕ → Val ω → Val ω → Bool
  | 0, _, _ => false
  | f + 1, a, b =>
    match a, b with
    | .str a, .str b => a = b
    | .num a, .num b => a = b
    | .obj a, .obj b => a = b
    | .undefined, .undefined => true
    | .arr [], .arr [] => true
    | .arr (x :: xs), .arr (y :: ys) => valEqF f x y && valEqF f (.arr xs) (.arr ys)
    | _, _ => false

/-- Fueled Boolean equality on syntax trees (sound). -/
def astEqF {ω : Type} [DecidableEq ω] : ℕ → Ast ω → Ast ω → Bool
  | 0, _, _ => false
  | f + 1, a, b =>
    match a, b with
    | .lit v, .lit w => valEqF (f + 1) v w
    | .unNode sp r, .unNode sp' r' => sp = sp' && astEqF f r r'
    | .binNode sp l r, .binNode sp' l' r' => sp = sp' && astEqF f l l' && astEqF f r r'
    | .callNode sp c [], .callNode sp' c' [] => sp = sp' && valEqF (f + 1) c c'
    | .callNode sp c (a :: as), .callNode sp' c' (a' :: as') =>
      astEqF f a a' && astEqF f (.callNode sp c as) (.callNode sp' c' as')
    | _, _ => false

/-- Fueled Boolean equality on parse results (sound). -/
def presEqF {ω : Type} [DecidableEq ω] (f : ℕ)
    (x y : Except String (Cursor × Ast ω)) : Bool :=
  match x, y with
  | .ok (c, t), .ok (c', t') => c = c' && astEqF f t t'
  | .error e, .error e' => e = e'
  | _, _ => false

/-- Fueled Boolean equality on evaluation results (sound). -/
def vresEqF {ω : Type} [DecidableEq ω] (f : ℕ)
    (x y : Except String (Val ω)) : Bool :=
  match x, y with
  | .ok v, .ok v' => valEqF f v v'
  | .error e, .error e' => e = e'
  | _, _ => false

/-- Replace the payload of each composite hole value; string, number and
`undefined` values are fixed, and array payloads (which no claim uses as hole
values) are cleared. Parsing only inspects a hole's constructor, so parse
results transport along this replacement. -/
def reHole {ω ω' : Type} (f : ω → ω') : Val ω → Val ω'
  | .obj o => .obj (f o)
  | .str s => .str s
  | .num q => .num q
  | .arr _ => .arr []
  | .undefined => .undefined

/-- `reHole` on tokens. -/
def tokHole {ω ω' : Type} (f : ω → ω') : Tok ω → Tok ω'
  | .lit v => .lit (reHole f v)
  | .opTok sp raw => .opTok sp raw

mutual
/-- `reHole` on syntax trees. -/
def astHole {ω ω' : Type} (f : ω → ω') : Ast ω → Ast ω'
  | .lit v => .lit (reHole f v)
  | .unNode sp r => .unNode sp (astHole f r)
  | .binNode sp l r => .binNode sp (astHole f l) (astHole f r)
  | .callNode sp c args => .callNode sp (reHole f c) (astHoleList f args)
/-- `reHole` on argument lists. -/
def astHoleList {ω ω' : Type} (f : ω → ω') : List (Ast ω) → List (Ast ω')
  | [] => []
  | a :: rest => astHole f a :: astHoleList f rest
end

/-- Replace every hole payload of an input. -/
def mapInput {ω ω' : Type} (f : ω → ω') (inp : Input ω) : Input ω' :=
  ⟨inp.strs, inp.vals.map (reHole f)⟩

/-- A two-object host universe for concrete scenarios. -/
inductive DemoObj where
  | A | B
deriving DecidableEq, Repr

/-- Host for the dispatch-order scenario: `A` exposes no instance `operator+`
but its class has a static `operator+` that throws; `B` exposes a working
instance `operator+` (returning `42`) and its class has no statics. -/
def hostC1 : Host DemoObj :=
  { instM := fun o s =>
      match o, s with
      | .B, "operator+" => some (fun _ => .ok (.num 42))
      | _, _ => none
    statM := fun o s =>
      match o, s with
      | .A, "operator+" => some (fun _ _ => .error "boom")
      | _, _ => none
    display := fun o => match o with | .A => "A" | .B => "B" }

/-- Host where `A`'s class static `operator+` throws while `B` exposes both a
working instance `operator+` and a working class static `operator+`. -/
def hostStat : Host DemoObj :=
  { instM := fun o s =>
      match o, s with
      | .B, "operator+" => some (fun _ => .ok (.num 99))
      | _, _ => none
    statM := fun o s =>
      match o, s with
      | .A, "operator+" => some (fun _ _ => .error "boom")
      | .B, "operator+" => some (fun _ _ => .ok (.num 7))
      | _, _ => none
    display := fun o => match o with | .A => "A" | .B => "B" }

/-- Host where `A` exposes a working unary `operator-` instance method. -/
def hostUn : Host DemoObj :=
  { instM := fun o s =>
      match o, s with
      | .A, "operator-" => some (fun args => .ok (.arr args))
      | _, _ => none
    statM := fun _ _ => none
    display := fun o => match o with | .A => "A" | .B => "B" }

/-- Host where `A` exposes instance `operator[]` and `operator()` methods that
return their argument list. -/
def hostCall : Host DemoObj :=
  { instM := fun o s =>
      match o, s with
      | .A, "operator[]" => some (fun args => .ok (.arr args))
      | .A, "operator()" => some (fun args => .ok (.arr args))
      | _, _ => none
    statM := fun _ _ => none
    display := fun o => match o with | .A => "A" | .B => "B" }

/-! ## General lemmas -/

theorem valEqF_sound {ω : Type} [DecidableEq ω] :
    ∀ (f : ℕ) (a b : Val ω), valEqF f a b = true → a = b := by
  intro f
  induction f with
  | zero => intro a b h; simp [valEqF] at h
  | succ f ih =>
    intro a b h
    cases a <;> cases b <;> simp only [valEqF] at h <;>
      try (exact absurd h (by decide))
    case str.str => simp_all
    case num.num => simp_all
    case obj.obj => simp_all
    case undefined.undefined => rfl
    case arr.arr l m =>
      cases l <;> cases m <;> simp only at h <;> try (exact absurd h (by decide))
      · rfl
      case cons.cons x xs y ys =>
        simp only [Bool.and_eq_true] at h
        have h1 := ih _ _ h.1
        have h2 := ih _ _ h.2
        simp only [Val.arr.injEq] at h2 ⊢
        simp [h1, h2]

theorem astEqF_sound {ω : Type} [DecidableEq ω] :
    ∀ (f : ℕ) (a b : Ast ω), astEqF f a b = true → a = b := by
  intro f
  induction f with
  | zero => intro a b h; simp [astEqF] at h
  | succ f ih =>
    intro a b h
    cases a <;> cases b <;> simp only [astEqF] at h <;>
      try (exact absurd h (by decide))
    case lit.lit v w => rw [valEqF_sound _ _ _ h]
    case unNode.unNode sp r sp' r' =>
      simp only [Bool.and_eq_true, decide_eq_true_eq] at h
      rw [h.1, ih _ _ h.2]
    case binNode.binNode sp l r sp' l' r' =>
      simp only [Bool.and_eq_true, decide_eq_true_eq] at h
      rw [h.1.1, ih _ _ h.1.2, ih _ _ h.2]
    case callNode.callNode sp c args sp' c' args' =>
      cases args <;> cases args' <;> simp only at h <;>
        try (exact absurd h (by decide))
      · simp only [Bool.and_eq_true, decide_eq_true_eq] at h
        rw [h.1, valEqF_sound _ _ _ h.2]
      case cons.cons a as a' as' =>
        simp only [Bool.and_eq_true] at h
        have h1 := ih _ _ h.1
        have h2 := ih _ _ h.2
        simp only [Ast.callNode.injEq] at h2
        simp [h1, h2.1, h2.2.1, h2.2.2]

theorem presEqF_sound {ω : Type} [DecidableEq ω] (f : ℕ)
    (x y : Except String (Cursor × Ast ω)) (h : presEqF f x y = true) : x = y := by
  match x, y with
  | .ok (c, t), .ok (c', t') =>
    simp only [presEqF, Bool.and_eq_true, decide_eq_true_eq] at h
    rw [h.1, astEqF_sound _ _ _ h.2]
  | .error e, .error e' =>
    simp only [presEqF, decide_eq_true_eq] at h
    rw [h]
  | .ok _, .error _ => simp [presEqF] at h
  | .error _, .ok _ => simp [presEqF] at h

theorem vresEqF_sound {ω : Type} [DecidableEq ω] (f : ℕ)
    (x y : Except String (Val ω)) (h : vresEqF f x y = true) : x = y := by
  match x, y with
  | .ok v, .ok v' =>
    simp only [vresEqF] at h
    rw [valEqF_sound _ _ _ h]
  | .error e, .error e' =>
    simp only [vresEqF, decide_eq_true_eq] at h
    rw [h]
  | .ok _, .error _ => simp [vresEqF] at h
  | .error _, .ok _ => simp [vresEqF] at h

theorem bind_ok {ε α β : Type} (a : α) (k : α → Except ε β) :
    (Except.ok a : Except ε α) >>= k = k a := rfl

theorem bind_err {ε α β : Type} (e : ε) (k : α → Except ε β) :
    (Except.error e : Except ε α) >>= k = .error e := rfl

theorem emap_ok {ε α β : Type} (f : α → β) (a : α) :
    (Except.ok a : Except ε α).map f = .ok (f a) := rfl

theorem emap_err {ε α β : Type} (f : α → β) (e : ε) :
    (Except.error e : Except ε α).map f = .error e := rfl

theorem mapInput_strs {ω ω' : Type} (f : ω → ω') (inp : Input ω) :
    (mapInput f inp).strs = inp.strs := rfl

theorem holeAt_hole {ω ω' : Type} (f : ω → ω') (inp : Input ω) (i : ℕ) :
    holeAt (mapInput f inp) i = reHole f (holeAt inp i) := by
  simp only [holeAt, mapInput, List.getElem?_map]
  cases inp.vals[i]? <;> simp [reHole]

theorem lex_hole {ω ω' : Type} (f : ω → ω') (ops : List (List OpSpec)) (inp : Input ω)
    (st : Cursor) :
    lex ops (mapInput f inp) st = (lex ops inp st).map (fun p => (p.1, tokHole f p.2)) := by
  unfold lex
  rw [mapInput_strs]
  cases hs : inp.strs[st.strIdx]? with
  | none => rfl
  | some frag =>
    simp only
    rw [holeAt_hole]
    cases hd : frag.data.drop (st.charIdx + wsCount (frag.data.drop st.charIdx)) with
    | nil => cases holeAt inp st.strIdx <;> rfl
    | cons c rest =>
      cases hm : matchOp ops.flatten (c :: rest) with
      | some pr => cases pr; simp [hm, Except.map, tokHole]
      | none =>
        simp only [hm]
        split
        · cases rest with
          | nil => rfl
          | cons r rs =>
            cases hsc : strScan c (r :: rs) <;> simp [hsc, Except.map, tokHole, reHole]
        · split
          · rfl
          · rfl

theorem next_hole {ω ω' : Type} (f : ω → ω') (ops : List (List OpSpec)) (inp : Input ω)
    (st : Cursor) :
    next ops (mapInput f inp) st = next ops inp st := by
  unfold next
  rw [mapInput_strs]
  cases hs : inp.strs[st.strIdx]? with
  | none => rfl
  | some frag =>
    simp only
    split
    · rfl
    · rw [lex_hole]
      cases hl : lex ops inp st with
      | error e => rfl
      | ok p =>
        obtain ⟨st2, tok⟩ := p
        cases tok with
        | opTok sp raw => rfl
        | lit v => cases v <;> simp [tokHole, reHole, jsToStrLen, emap_ok, bind_ok]

theorem astHoleList_eq_map {ω ω' : Type} (f : ω → ω') :
    ∀ l : List (Ast ω), astHoleList f l = l.map (astHole f) := by
  intro l
  induction l with
  | nil => rfl
  | cons a rest ih => simp [astHoleList, ih]

theorem chainFold_hole {ω ω' : Type} (f : ω → ω') :
    ∀ (pairs : List (OpSpec × Ast ω)) (left : Ast ω),
    astHole f (chainFold left pairs) =
      chainFold (astHole f left) (pairs.map (fun p => (p.1, astHole f p.2))) := by
  intro pairs
  induction pairs with
  | nil => intro left; rfl
  | cons p rest ih => intro left; cases p; simp [chainFold, ih, astHole]

theorem tierChain_hole {ω ω' : Type} (f : ω → ω') (ops : List (List OpSpec)) (inp : Input ω)
    (pSub : Cursor → Except String (Cursor × Ast ω))
    (pSub' : Cursor → Except String (Cursor × Ast ω'))
    (tier : List OpSpec)
    (hp : ∀ st, pSub' st = (pSub st).map (fun p => (p.1, astHole f p.2))) :
    ∀ (fuel : ℕ) (st : Cursor) (acc : List (OpSpec × Ast ω)),
    tierChain ops (mapInput f inp) pSub' tier fuel st
        (acc.map (fun p => (p.1, astHole f p.2))) =
      (tierChain ops inp pSub tier fuel st acc).map
        (fun r => (r.1, r.2.map (fun p => (p.1, astHole f p.2)))) := by
  intro fuel
  induction fuel with
  | zero => intro st acc; rfl
  | succ fuel ih =>
    intro st acc
    simp only [tierChain]
    rw [lex_hole]
    cases hl : lex ops inp st with
    | error e => rfl
    | ok p =>
      obtain ⟨st0, t⟩ := p
      simp only [emap_ok, bind_ok]
      cases t with
      | lit v => rfl
      | opTok sp raw =>
        simp only [tokHole]
        split
        · rw [next_hole]
          cases hn : next ops inp st0 with
          | error e => rfl
          | ok st1 =>
            simp only [bind_ok]
            rw [hp st1]
            cases hps : pSub st1 with
            | error e => rfl
            | ok pr =>
              obtain ⟨st2, r⟩ := pr
              simp only [emap_ok, bind_ok]
              have h2 := ih st2 (acc ++ [(sp, r)])
              simpa using h2
        · rfl

theorem callLoop_hole {ω ω' : Type} (f : ω → ω') (ops : List (List OpSpec)) (inp : Input ω)
    (pTop : Cursor → Except String (Cursor × Ast ω))
    (pTop' : Cursor → Except String (Cursor × Ast ω'))
    (closing : String)
    (hp : ∀ st, pTop' st = (pTop st).map (fun p => (p.1, astHole f p.2))) :
    ∀ (fuel : ℕ) (phase : Bool) (st : Cursor) (acc : List (Ast ω)),
    callLoop ops (mapInput f inp) pTop' closing fuel phase st (acc.map (astHole f)) =
      (callLoop ops inp pTop closing fuel phase st acc).map
        (fun r => (r.1, r.2.1, r.2.2.map (astHole f))) := by
  intro fuel
  induction fuel with
  | zero => intro phase st acc; cases phase <;> rfl
  | succ fuel ih =>
    intro phase st acc
    cases phase with
    | true =>
      simp only [callLoop]
      rw [lex_hole]
      cases hl : lex ops inp st with
      | error e => rfl
      | ok p =>
        obtain ⟨st0, t⟩ := p
        simp only [emap_ok, bind_ok]
        cases t with
        | lit v => exact ih false st0 acc
        | opTok sp raw =>
          simp only [tokHole]
          split
          · rfl
          · exact ih false st0 acc
    | false =>
      simp only [callLoop]
      rw [hp st]
      cases hpt : pTop st with
      | error e => rfl
      | ok pr =>
        obtain ⟨st1, a⟩ := pr
        simp only [emap_ok, bind_ok]
        rw [lex_hole]
        cases hl : lex ops inp st1 with
        | error e => rfl
        | ok p2 =>
          obtain ⟨st2, t2⟩ := p2
          simp only [emap_ok, bind_ok]
          cases t2 with
          | lit v => rfl
          | opTok sp2 raw2 =>
            simp only [tokHole]
            split
            · rw [next_hole]
              cases hn : next ops inp st2 with
              | error e => rfl
              | ok st3 =>
                simp only [bind_ok]
                have h2 := ih true st3 (acc ++ [a])
                simpa using h2
            · split
              · rfl
              · split
                · simp [emap_ok]
                · have h2 := ih true st2 (acc ++ [a])
                  simpa using h2

theorem parseLevel_hole {ω ω' : Type} (f : ω → ω') (ops : List (List OpSpec)) (inp : Input ω) :
    ∀ (fuel lvl : ℕ) (st : Cursor),
    parseLevel ops (mapInput f inp) fuel lvl st =
      (parseLevel ops inp fuel lvl st).map (fun p => (p.1, astHole f p.2)) := by
  intro fuel
  induction fuel with
  | zero => intro lvl st; rfl
  | succ fuel ih =>
    intro lvl st
    cases lvl with
    | zero =>
      simp only [parseLevel]
      rw [lex_hole]
      cases hl : lex ops inp st with
      | error e => rfl
      | ok p =>
        obtain ⟨st1, tok⟩ := p
        simp only [emap_ok, bind_ok]
        cases tok with
        | opTok sp raw =>
          simp only [tokHole]
          split
          · rw [next_hole]
            cases hn : next ops inp st1 with
            | error e => rfl
            | ok st2 =>
              simp only [bind_ok]
              rw [ih ops.length st2]
              cases hpe : parseLevel ops inp fuel ops.length st2 with
              | error e => rfl
              | ok pr =>
                obtain ⟨st3, expr⟩ := pr
                simp only [emap_ok, bind_ok]
                rw [lex_hole]
                cases hcp : lex ops inp st3 with
                | error e => rfl
                | ok p2 =>
                  obtain ⟨st4, cp⟩ := p2
                  simp only [emap_ok, bind_ok]
                  cases cp with
                  | opTok spc rawc =>
                    simp only [tokHole]
                    split
                    · rw [next_hole]
                      cases hn2 : next ops inp st4 <;> rfl
                    · rfl
                  | lit v => rfl
          · cases sp with
            | un s =>
              simp only
              rw [next_hole]
              cases hn : next ops inp st1 with
              | error e => rfl
              | ok st2 =>
                simp only [bind_ok]
                rw [ih ops.length st2]
                cases hpe : parseLevel ops inp fuel ops.length st2 <;> rfl
            | bin s =>
              simp only
              cases hf : ops.flatten.find?
                  (fun o => match o with | .un s => s = raw | _ => false) with
              | none => rfl
              | some usp =>
                simp only
                rw [next_hole]
                cases hn : next ops inp st1 with
                | error e => rfl
                | ok st2 =>
                  simp only [bind_ok]
                  rw [ih ops.length st2]
                  cases hpe : parseLevel ops inp fuel ops.length st2 <;> rfl
            | fn o c =>
              simp only
              cases hf : ops.flatten.find?
                  (fun o => match o with | .un s => s = raw | _ => false) with
              | none => rfl
              | some usp =>
                simp only
                rw [next_hole]
                cases hn : next ops inp st1 with
                | error e => rfl
                | ok st2 =>
                  simp only [bind_ok]
                  rw [ih ops.length st2]
                  cases hpe : parseLevel ops inp fuel ops.length st2 <;> rfl
        | lit v =>
          simp only [tokHole]
          rw [next_hole]
          cases hn : next ops inp st1 with
          | error e => cases v <;> rfl
          | ok st2 =>
            simp only [bind_ok]
            cases v with
            | undefined => rfl
            | str s =>
              simp only [reHole]
              rw [lex_hole]
              cases ht2 : lex ops inp st2 with
              | error e => rfl
              | ok p2 =>
                obtain ⟨st3, t2⟩ := p2
                simp only [emap_ok, bind_ok]
                cases t2 with
                | lit w => simp [tokHole, astHole, reHole, emap_ok]
                | opTok spt rawt =>
                  cases spt with
                  | bin s2 => simp [tokHole, astHole, reHole, emap_ok]
                  | un s2 => simp [tokHole, astHole, reHole, emap_ok]
                  | fn o c =>
                    simp only [tokHole]
                    split
                    · rw [next_hole]
                      cases hn2 : next ops inp st3 with
                      | error e => rfl
                      | ok st4 =>
                        simp only [bind_ok]
                        have hcl := callLoop_hole f ops inp
                          (parseLevel ops inp fuel ops.length)
                          (parseLevel ops (mapInput f inp) fuel ops.length) c
                          (fun st => ih ops.length st) fuel true st4 []
                        simp only [List.map_nil] at hcl
                        rw [hcl]
                        cases hc : callLoop ops inp (parseLevel ops inp fuel ops.length)
                            c fuel true st4 [] with
                        | error e => rfl
                        | ok r =>
                          obtain ⟨st5, spC, args⟩ := r
                          simp [emap_ok, bind_ok, astHole, astHoleList_eq_map, reHole]
                    · simp [astHole, reHole, emap_ok]
            | num q =>
              simp only [reHole]
              rw [lex_hole]
              cases ht2 : lex ops inp st2 with
              | error e => rfl
              | ok p2 =>
                obtain ⟨st3, t2⟩ := p2
                simp only [emap_ok, bind_ok]
                cases t2 with
                | lit w => simp [tokHole, astHole, reHole, emap_ok]
                | opTok spt rawt =>
                  cases spt with
                  | bin s2 => simp [tokHole, astHole, reHole, emap_ok]
                  | un s2 => simp [tokHole, astHole, reHole, emap_ok]
                  | fn o c =>
                    simp only [tokHole]
                    split
                    · rw [next_hole]
                      cases hn2 : next ops inp st3 with
                      | error e => rfl
                      | ok st4 =>
                        simp only [bind_ok]
                        have hcl := callLoop_hole f ops inp
                          (parseLevel ops inp fuel ops.length)
                          (parseLevel ops (mapInput f inp) fuel ops.length) c
                          (fun st => ih ops.length st) fuel true st4 []
                        simp only [List.map_nil] at hcl
                        rw [hcl]
                        cases hc : callLoop ops inp (parseLevel ops inp fuel ops.length)
                            c fuel true st4 [] with
                        | error e => rfl
                        | ok r =>
                          obtain ⟨st5, spC, args⟩ := r
                          simp [emap_ok, bind_ok, astHole, astHoleList_eq_map, reHole]
                    · simp [astHole, reHole, emap_ok]
            | obj o =>
              simp only [reHole]
              rw [lex_hole]
              cases ht2 : lex ops inp st2 with
              | error e => rfl
              | ok p2 =>
                obtain ⟨st3, t2⟩ := p2
                simp only [emap_ok, bind_ok]
                cases t2 with
                | lit w => simp [tokHole, astHole, reHole, emap_ok]
                | opTok spt rawt =>
                  cases spt with
                  | bin s2 => simp [tokHole, astHole, reHole, emap_ok]
                  | un s2 => simp [tokHole, astHole, reHole, emap_ok]
                  | fn o2 c =>
                    simp only [tokHole]
                    split
                    · rw [next_hole]
                      cases hn2 : next ops inp st3 with
                      | error e => rfl
                      | ok st4 =>
                        simp only [bind_ok]
                        have hcl := callLoop_hole f ops inp
                          (parseLevel ops inp fuel ops.length)
                          (parseLevel ops (mapInput f inp) fuel ops.length) c
                          (fun st => ih ops.length st) fuel true st4 []
                        simp only [List.map_nil] at hcl
                        rw [hcl]
                        cases hc : callLoop ops inp (parseLevel ops inp fuel ops.length)
                            c fuel true st4 [] with
                        | error e => rfl
                        | ok r =>
                          obtain ⟨st5, spC, args⟩ := r
                          simp [emap_ok, bind_ok, astHole, astHoleList_eq_map, reHole]
                    · simp [astHole, reHole, emap_ok]
            | arr l =>
              simp only [reHole]
              rw [lex_hole]
              cases ht2 : lex ops inp st2 with
              | error e => rfl
              | ok p2 =>
                obtain ⟨st3, t2⟩ := p2
                simp only [emap_ok, bind_ok]
                cases t2 with
                | lit w => simp [tokHole, astHole, reHole, emap_ok]
                | opTok spt rawt =>
                  cases spt with
                  | bin s2 => simp [tokHole, astHole, reHole, emap_ok]
                  | un s2 => simp [tokHole, astHole, reHole, emap_ok]
                  | fn o c =>
                    simp only [tokHole]
                    split
                    · rw [next_hole]
                      cases hn2 : next ops inp st3 with
                      | error e => rfl
                      | ok st4 =>
                        simp only [bind_ok]
                        have hcl := callLoop_hole f ops inp
                          (parseLevel ops inp fuel ops.length)
                          (parseLevel ops (mapInput f inp) fuel ops.length) c
                          (fun st => ih ops.length st) fuel true st4 []
                        simp only [List.map_nil] at hcl
                        rw [hcl]
                        cases hc : callLoop ops inp (parseLevel ops inp fuel ops.length)
                            c fuel true st4 [] with
                        | error e => rfl
                        | ok r =>
                          obtain ⟨st5, spC, args⟩ := r
                          simp [emap_ok, bind_ok, astHole, astHoleList_eq_map, reHole]
                    · simp [astHole, reHole, emap_ok]
    | succ lvl =>
      simp only [parseLevel]
      rw [ih lvl st]
      cases hle : parseLevel ops inp fuel lvl st with
      | error e => rfl
      | ok pr =>
        obtain ⟨st1, left⟩ := pr
        simp only [emap_ok, bind_ok]
        rw [lex_hole]
        cases hl : lex ops inp st1 with
        | error e => rfl
        | ok p =>
          obtain ⟨st2, t⟩ := p
          simp only [emap_ok, bind_ok]
          cases t with
          | lit v =>
            cases v with
            | undefined =>
              simp only [tokHole, reHole]
              rw [next_hole]
              cases hn : next ops inp st2 <;> rfl
            | str s => rfl
            | num q => rfl
            | obj o => rfl
            | arr l => rfl
          | opTok sp raw =>
            simp only [tokHole]
            have htc := tierChain_hole f ops inp
              (parseLevel ops inp fuel lvl)
              (parseLevel ops (mapInput f inp) fuel lvl)
              ((ops[lvl]?).getD [])
              (fun st => ih lvl st) fuel st2 []
            simp only [List.map_nil] at htc
            rw [htc]
            cases hc : tierChain ops inp (parseLevel ops inp fuel lvl)
                ((ops[lvl]?).getD []) fuel st2 [] with
            | error e => rfl
            | ok r =>
              obtain ⟨st4, pairs⟩ := r
              simp [emap_ok, bind_ok, chainFold_hole]

instance {ε α : Type} [DecidableEq ε] [DecidableEq α] : DecidableEq (Except ε α) := fun x y =>
  match x, y with
  | .ok a, .ok b =>
    if h : a = b then .isTrue (by rw [h]) else .isFalse (fun hc => h (Except.ok.inj hc))
  | .error a, .error b =>
    if h : a = b then .isTrue (by rw [h]) else .isFalse (fun hc => h (Except.error.inj hc))
  | .ok _, .error _ => .isFalse (fun hc => Except.noConfusion hc)
  | .error _, .ok _ => .isFalse (fun hc => Except.noConfusion hc)

theorem parseTop_hole {ω ω' : Type} (f : ω → ω') (ops : List (List OpSpec)) (inp : Input ω) :
    parseTop ops (mapInput f inp) = (parseTop ops inp).map (fun p => (p.1, astHole f p.2)) :=
  parseLevel_hole f ops inp parseFuel ops.length ⟨0, 0⟩

theorem parseTop_lift {ω ω' : Type} (f : ω → ω') (ops : List (List OpSpec))
    (strs : List String) (vals : List (Val ω)) (r : Except String (Cursor × Ast ω))
    (hbase : parseTop ops ⟨strs, vals⟩ = r) :
    parseTop ops ⟨strs, vals.map (reHole f)⟩ = r.map (fun p => (p.1, astHole f p.2)) := by
  have h := parseTop_hole f ops ⟨strs, vals⟩
  simpa [mapInput, hbase] using h

theorem processOps_default : processOps defaultOps = .ok processedDefault := by decide

theorem runTemplate_run {ω : Type} (opsIn : List (List OpIn)) (P : List (List OpSpec))
    (h : Host ω) (strs : List String) (vals : List (Val ω))
    (hP : processOps opsIn = .ok P) :
    runTemplate opsIn h strs vals =
      (parseTop P ⟨strs, vals⟩).bind (fun p => evalTree h p.2) := by
  unfold runTemplate
  rw [hP]
  rfl

theorem attemptOr_error {ω : Type} (c : Option (Except String (Val ω)))
    (fb : Except String (Val ω)) (e : String)
    (h : attemptOr c fb = .error e) : fb = .error e := by
  unfold attemptOr at h
  split at h
  · exact absurd h (by simp)
  · exact h

/-! ## Claim theorems -/

/-- Claim C3, counterexample: the user table `[['(']]` declares neither a
`Bracket('(',')')` spec nor a `Binary(',')` spec, so the claim predicts
synthetic specs for all of `'('`, `')'` and `','`; the code checks each symbol
independently and, since the declared binary `'('` spec already mentions
`'('`, appends specs only for `')'` and `','`. -/
theorem C3_counterexample :
    processOps [[.strIn "("]] = .ok [[.bin "(", .un ")", .un ","]] ∧
    ([OpSpec.un ")", OpSpec.un ","].all (fun sp => !(mentionsSym sp "("))) = true := by
  exact ⟨by decide, by decide⟩

/-- Claim C3, amended: table construction fails with the configuration error
exactly when no tier contains a spec; and for every table with a non-empty
tier in which no declared spec mentions any of `'('`, `')'`, `','` (neither as
a binary/unary symbol nor as a bracket part), construction appends exactly the
three synthetic `un`-tagged structural specs to the lowest-precedence tier.
The appends are per-symbol: a symbol already mentioned by any declared spec is
skipped. -/
theorem C3_theorem (opsIn : List (List OpIn)) :
    ((∃ e, processOps opsIn = .error e) ↔ ∀ tier ∈ opsIn, tier = []) ∧
    ((∃ tier ∈ opsIn, tier ≠ []) →
      (∀ sp ∈ opsIn.flatten, mentionsSym (normSpec sp) "(" = false ∧
        mentionsSym (normSpec sp) ")" = false ∧ mentionsSym (normSpec sp) "," = false) →
      processOps opsIn =
        .ok (pushLast (pushLast (pushLast (opsIn.map (fun tier => tier.map normSpec))
          (.un "(")) (.un ")")) (.un ","))) := by
  constructor
  · constructor
    · rintro ⟨e, he⟩
      unfold processOps at he
      split at he
      · rename_i hc
        intro tier htier
        rcases hc with hc | hc
        · rw [List.length_eq_zero] at hc
          subst hc
          cases htier
        · rw [List.any_eq_true] at hc
          push_neg at hc
          have := hc tier htier
          simp at this
          exact this
      · exact absurd he (by simp)
    · intro hall
      have hc : opsIn.length = 0 ∨ ¬ opsIn.any (fun tier => tier.length ≠ 0) := by
        right
        rw [List.any_eq_true]
        push_neg
        intro tier htier
        simp [hall tier htier]
      refine ⟨"No operators supplied", ?_⟩
      unfold processOps
      rw [if_pos hc]
  · intro hne hmention
    have hc : ¬(opsIn.length = 0 ∨ ¬ opsIn.any (fun tier => tier.length ≠ 0)) := by
      push_neg
      obtain ⟨tier, htier, hn⟩ := hne
      constructor
      · intro hlen
        rw [List.length_eq_zero] at hlen
        subst hlen
        cases htier
      · rw [List.any_eq_true]
        exact ⟨tier, htier, by simpa using hn⟩
    unfold processOps
    rw [if_neg hc]
    have key : ∀ sym : String, (∀ sp ∈ opsIn.flatten, mentionsSym (normSpec sp) sym = false) →
        ((opsIn.map (fun tier => tier.map normSpec)).flatten.any
          (fun sp => mentionsSym sp sym)) = false := by
      intro sym hsym
      rw [List.any_eq_false]
      intro sp hsp
      rw [List.mem_flatten] at hsp
      obtain ⟨l, hl, hspl⟩ := hsp
      rw [List.mem_map] at hl
      obtain ⟨tier, htier, rfl⟩ := hl
      rw [List.mem_map] at hspl
      obtain ⟨sp0, hsp0, rfl⟩ := hspl
      simp [hsym sp0 (List.mem_flatten.mpr ⟨tier, htier, hsp0⟩)]
    have h1 := key "(" (fun sp hsp => (hmention sp hsp).1)
    have h2 := key ")" (fun sp hsp => (hmention sp hsp).2.1)
    have h3 := key "," (fun sp hsp => (hmention sp hsp).2.2)
    simp only [h1, h2, h3, Bool.false_eq_true, if_false]

/-- Claim C3, witness: the table `[['+']]` has a non-empty tier mentioning
none of the three structural symbols, so construction succeeds and appends
the three synthetic specs to its (only) tier. -/
theorem C3_witness :
    processOps [[.strIn "+"]] = .ok [[.bin "+", .un "(", .un ")", .un ","]] ∧
    ¬ ∃ e, processOps [[.strIn "+"]] = .error e := by
  have h := C3_theorem [[.strIn "+"]]
  constructor
  · have h2 := h.2 ⟨[.strIn "+"], by decide, by decide⟩ (by decide)
    exact h2.trans (by rfl)
  · intro he
    have := h.1.mp he
    have h3 := this [.strIn "+"] (by decide)
    cases h3

/-- Claim C1, counterexample: with the default table, a composite left operand
`A` with no instance `operator+` whose class static `operator+` throws, and a
right operand `B` with a working instance `operator+` (returning `42`),
`A + B` does not fall back to `B`'s instance method as the claim states: the
evaluator raises the exhaustion OperatorError instead. -/
theorem C1_counterexample :
    runTemplate defaultOps hostC1 ["", " + ", ""] [.obj .A, .obj .B] =
      .error "Operator error: operator+ is not a callable on left operand A or a static function on either operand's types" ∧
    runTemplate defaultOps hostC1 ["", " + ", ""] [.obj .A, .obj .B] ≠ .ok (.num 42) := by
  have h1 : runTemplate defaultOps hostC1 ["", " + ", ""] [.obj .A, .obj .B] =
      .error "Operator error: operator+ is not a callable on left operand A or a static function on either operand's types" :=
    vresEqF_sound 100 _ _ (by decide)
  exact ⟨h1, by rw [h1]; simp⟩

/-- Claim C1, amended: when the left operand of a binary node is composite,
resolution tries (1) the left operand's instance method, (2) the left type's
static function (throw swallowed), (3) the right type's static function
(throw swallowed), then the OperatorError; the right operand's INSTANCE method
is never consulted for a composite left operand (it is consulted only when
the left operand is primitive). In the claim's scenario — left composite with
no instance method and a throwing left-type static — evaluation falls back to
the right TYPE's static function, irrespective of the right operand's
instance method. -/
theorem C1_theorem {ω : Type} (h : Host ω) (a b : ω) (s : String)
    (g g2 : Val ω → Val ω → Except String (Val ω)) (v : Val ω) (e : String)
    (h1 : h.instM a ("operator" ++ s) = none)
    (h2 : h.statM a ("operator" ++ s) = some g)
    (h3 : g (.obj a) (.obj b) = .error e)
    (h4 : h.statM b ("operator" ++ s) = some g2)
    (h5 : g2 (.obj a) (.obj b) = .ok v) :
    dispatchBin h s (.obj a) (.obj b) = .ok v := by
  unfold dispatchBin
  simp only [valIsObject, if_true, instLookup, statLookup, h1, h2, h4, Option.map_some']
  rw [h3, h5]
  simp [attemptOr]

/-- Claim C1, witness: with `A`'s class static `operator+` throwing and `B`
exposing both a working instance method (returning `99`) and a working class
static (returning `7`), `A + B` returns the static's `7`, not the instance
method's `99`. -/
theorem C1_witness :
    dispatchBin hostStat "+" (.obj .A) (.obj .B) = .ok (.num 7) ∧
    hostStat.instM .B "operator+" ≠ none := by
  constructor
  · exact C1_theorem hostStat .A .B "+" _ _ (.num 7) "boom" rfl rfl rfl rfl rfl
  · simp [hostStat]

/-- Claim C2: during binary dispatch with no usable instance method on the
left operand (so the unwrapped step 1 does not fire), every fallback candidate
attempt is wrapped: an exception thrown by a candidate is swallowed and never
observed by the caller, and the only error that can surface is one of the four
fixed exhaustion OperatorError messages. -/
theorem C2_theorem {ω : Type} (h : Host ω) (s : String) (l r : Val ω) (e : String)
    (h1 : instLookup h l ("operator" ++ s) = none)
    (h2 : dispatchBin h s l r = .error e) :
    e = "Operator error: " ++ ("operator" ++ s) ++ " is not a callable on left operand " ++
        toErrorDisplay h l ++ " or a static function on either operand's types" ∨
    e = "Operator error: cannot evaluate " ++ toErrorDisplay h l ++ " + " ++
        toErrorDisplay h r ∨
    e = "Operator error: cannot evaluate " ++ toErrorDisplay h l ++ " " ++ s ++ " " ++
        toErrorDisplay h r ∨
    e = "Operator error: " ++ ("operator" ++ s) ++
        " is not a builtin or a callable on left operand " ++ toErrorDisplay h l := by
  unfold dispatchBin at h2
  dsimp only at h2
  split at h2
  · rw [h1] at h2
    have hx := attemptOr_error _ _ _ h2
    have hy := attemptOr_error _ _ _ hx
    exact .inl (Except.error.inj hy).symm
  · split at h2
    · rename_i hplus
      split at h2
      · exact absurd h2 (by simp)
      · have hx := attemptOr_error _ _ _ h2
        have hy := attemptOr_error _ _ _ hx
        subst hplus
        exact .inr (.inl (Except.error.inj hy).symm)
    · split at h2
      · split at h2
        · exact absurd h2 (by simp)
        · have hx := attemptOr_error _ _ _ h2
          have hy := attemptOr_error _ _ _ hx
          exact .inr (.inr (.inl (Except.error.inj hy).symm))
      · exact .inr (.inr (.inr (Except.error.inj h2).symm))

/-- Claim C2, witness: `A + A` with `hostC1` (no instance method on `A`, a
throwing class static) surfaces exactly the first exhaustion message; the
static's own "boom" exception is never observed. -/
theorem C2_witness :
    "Operator error: operator+ is not a callable on left operand A or a static function on either operand's types" =
      "Operator error: " ++ ("operator" ++ "+") ++ " is not a callable on left operand " ++
        toErrorDisplay hostC1 (.obj .A) ++ " or a static function on either operand's types" ∨
    "Operator error: operator+ is not a callable on left operand A or a static function on either operand's types" =
      "Operator error: cannot evaluate " ++ toErrorDisplay hostC1 (.obj .A) ++ " + " ++
        toErrorDisplay hostC1 (.obj .A) ∨
    "Operator error: operator+ is not a callable on left operand A or a static function on either operand's types" =
      "Operator error: cannot evaluate " ++ toErrorDisplay hostC1 (.obj .A) ++ " " ++ "+" ++
        " " ++ toErrorDisplay hostC1 (.obj .A) ∨
    "Operator error: operator+ is not a callable on left operand A or a static function on either operand's types" =
      "Operator error: " ++ ("operator" ++ "+") ++
        " is not a builtin or a callable on left operand " ++ toErrorDisplay hostC1 (.obj .A) :=
  C2_theorem hostC1 "+" (.obj .A) (.obj .A) _ rfl (vresEqF_sound 100 _ _ (by decide))

/-- Claim C4: the lexer's operator scan walks the flattened table (tiers in
declaration order, specs in listed order, synthetic appends last) and returns
the first spec one of whose symbols is a prefix of the remaining input — every
spec before the winner fails to match, the matched text is a prefix of the
input, and it is one of the winning spec's own symbols. Consequently, for the
user table `[['='],['==']]`, the text `==` lexes as two consecutive `=`
operator tokens followed by end of input, never as one `==` token. -/
theorem C4_theorem :
    (∀ (specs : List OpSpec) (input : List Char) (sp : OpSpec) (raw : String),
      matchOp specs input = some (sp, raw) →
      specMatch sp input = some raw ∧
      ∃ pre post, specs = pre ++ sp :: post ∧ ∀ sp' ∈ pre, specMatch sp' input = none) ∧
    (∀ (sp : OpSpec) (input : List Char) (raw : String),
      specMatch sp input = some raw →
      raw.data.isPrefixOf input = true ∧ mentionsSym sp raw = true) ∧
    processOps [[.strIn "="], [.strIn "=="]] =
      .ok [[.bin "="], [.bin "==", .un "(", .un ")", .un ","]] ∧
    (∀ ω : Type,
      lex (ω := ω) [[.bin "="], [.bin "==", .un "(", .un ")", .un ","]] ⟨["=="], []⟩ ⟨0, 0⟩ =
        .ok (⟨0, 0⟩, .opTok (.bin "=") "=") ∧
      next (ω := ω) [[.bin "="], [.bin "==", .un "(", .un ")", .un ","]] ⟨["=="], []⟩ ⟨0, 0⟩ =
        .ok ⟨0, 1⟩ ∧
      lex (ω := ω) [[.bin "="], [.bin "==", .un "(", .un ")", .un ","]] ⟨["=="], []⟩ ⟨0, 1⟩ =
        .ok (⟨0, 1⟩, .opTok (.bin "=") "=") ∧
      next (ω := ω) [[.bin "="], [.bin "==", .un "(", .un ")", .un ","]] ⟨["=="], []⟩ ⟨0, 1⟩ =
        .ok ⟨0, 2⟩ ∧
      lex (ω := ω) [[.bin "="], [.bin "==", .un "(", .un ")", .un ","]] ⟨["=="], []⟩ ⟨0, 2⟩ =
        .ok (⟨0, 2⟩, .lit .undefined)) := by
  refine ⟨?_, ?_, by decide, fun ω => ⟨rfl, rfl, rfl, rfl, rfl⟩⟩
  · intro specs
    induction specs with
    | nil => intro input sp raw h; cases h
    | cons sp0 rest ih =>
      intro input sp raw h
      unfold matchOp at h
      cases hm : specMatch sp0 input with
      | some raw0 =>
        rw [hm] at h
        simp only [Option.some.injEq, Prod.mk.injEq] at h
        obtain ⟨rfl, rfl⟩ := h
        exact ⟨hm, [], rest, rfl, by intro sp' hsp'; cases hsp'⟩
      | none =>
        rw [hm] at h
        obtain ⟨hsm, pre, post, rfl, hpre⟩ := ih input sp raw h
        refine ⟨hsm, sp0 :: pre, post, rfl, ?_⟩
        intro sp' hsp'
        rcases List.mem_cons.mp hsp' with rfl | hmem
        · exact hm
        · exact hpre sp' hmem
  · intro sp input raw h
    cases sp with
    | bin s =>
      simp only [specMatch] at h
      split at h
      · obtain rfl := Option.some.inj h
        constructor
        · assumption
        · simp [mentionsSym]
      · cases h
    | un s =>
      simp only [specMatch] at h
      split at h
      · obtain rfl := Option.some.inj h
        constructor
        · assumption
        · simp [mentionsSym]
      · cases h
    | fn o c =>
      simp only [specMatch] at h
      split at h
      · obtain rfl := Option.some.inj h
        constructor
        · assumption
        · simp [mentionsSym]
      · split at h
        · obtain rfl := Option.some.inj h
          constructor
          · assumption
          · simp [mentionsSym]
        · cases h

/-- Claim C4, witness: with the `[['='],['==']]` table flattened, the scan on
input `==` returns the earlier `=` spec; the characterization instantiates
with an empty prefix of failed candidates, and the matched text `=` is a
prefix of the input and the winning spec's own symbol. -/
theorem C4_witness :
    (specMatch (.bin "=") "==".data = some "=" ∧
      ∃ pre post, ([.bin "=", .bin "==", .un "(", .un ")", .un ","] : List OpSpec) =
        pre ++ OpSpec.bin "=" :: post ∧ ∀ sp' ∈ pre, specMatch sp' "==".data = none) ∧
    ("=".data.isPrefixOf "==".data = true ∧ mentionsSym (.bin "=") "=" = true) := by
  refine ⟨C4_theorem.1 [.bin "=", .bin "==", .un "(", .un ")", .un ","] "==".data
    (.bin "=") "=" (by decide), C4_theorem.2.1 (.bin "=") "==".data "=" (by decide)⟩

/-- Claim C6: a recorded same-tier operator chain folds strictly
left-associatively — appending one more `(op, right)` pair wraps the previous
fold as the new left operand — and, for all hole values `A`, `B`, `C` and any
host, `A - B - C` parses to the same tree as `(A - B) - C` (the left-nested
`((A - B) - C)`), so the two evaluate identically. -/
theorem C6_theorem {ω : Type} (h : Host ω) (a b c : ω) :
    (∀ (left : Ast ω) (pairs : List (OpSpec × Ast ω)) (sp : OpSpec) (r : Ast ω),
      chainFold left (pairs ++ [(sp, r)]) = .binNode sp (chainFold left pairs) r) ∧
    parseTop processedDefault ⟨["", " - ", " - ", ""], [.obj a, .obj b, .obj c]⟩ =
      .ok (⟨4, 0⟩, .binNode (.bin "-")
        (.binNode (.bin "-") (.lit (.obj a)) (.lit (.obj b))) (.lit (.obj c))) ∧
    parseTop processedDefault ⟨["(", " - ", ") - ", ""], [.obj a, .obj b, .obj c]⟩ =
      .ok (⟨4, 0⟩, .binNode (.bin "-")
        (.binNode (.bin "-") (.lit (.obj a)) (.lit (.obj b))) (.lit (.obj c))) ∧
    runTemplate defaultOps h ["", " - ", " - ", ""] [.obj a, .obj b, .obj c] =
      runTemplate defaultOps h ["(", " - ", ") - ", ""] [.obj a, .obj b, .obj c] := by
  have snoc : ∀ (left : Ast ω) (pairs : List (OpSpec × Ast ω)) (sp : OpSpec) (r : Ast ω),
      chainFold left (pairs ++ [(sp, r)]) = .binNode sp (chainFold left pairs) r := by
    intro left pairs
    induction pairs generalizing left with
    | nil => intro sp r; rfl
    | cons p rest ih => intro sp r; cases p; simp [chainFold, ih]
  have base1 : parseTop processedDefault
      (⟨["", " - ", " - ", ""], [.obj 0, .obj 1, .obj 2]⟩ : Input ℕ) =
      .ok (⟨4, 0⟩, .binNode (.bin "-")
        (.binNode (.bin "-") (.lit (.obj 0)) (.lit (.obj 1))) (.lit (.obj 2))) :=
    presEqF_sound 100 _ _ (by decide)
  have base2 : parseTop processedDefault
      (⟨["(", " - ", ") - ", ""], [.obj 0, .obj 1, .obj 2]⟩ : Input ℕ) =
      .ok (⟨4, 0⟩, .binNode (.bin "-")
        (.binNode (.bin "-") (.lit (.obj 0)) (.lit (.obj 1))) (.lit (.obj 2))) :=
    presEqF_sound 100 _ _ (by decide)
  have l1 := parseTop_lift (fun n => if n = 0 then a else if n = 1 then b else c)
    processedDefault _ _ _ base1
  have l2 := parseTop_lift (fun n => if n = 0 then a else if n = 1 then b else c)
    processedDefault _ _ _ base2
  simp only [List.map, reHole, astHole, Except.map] at l1 l2
  norm_num at l1 l2
  refine ⟨snoc, l1, l2, ?_⟩
  rw [runTemplate_run defaultOps processedDefault h _ _ processOps_default,
      runTemplate_run defaultOps processedDefault h _ _ processOps_default, l1, l2]

/-- Claim C7: with the default table, `A - -B` parses as
`BinaryOp(-, A, UnaryOp(-, B))` — the second `-` lexes as the binary spec but
is re-tagged by the primary parser's unary lookup — and evaluating a `UnaryOp`
invokes the operand's instance method `operator-` with no arguments, failing
with the OperatorError naming the operand when the method is absent. -/
theorem C7_theorem {ω : Type} (h : Host ω) (a b : ω) :
    parseTop processedDefault ⟨["", " -  -", ""], [.obj a, .obj b]⟩ =
      .ok (⟨3, 0⟩, .binNode (.bin "-") (.lit (.obj a))
        (.unNode (.un "-") (.lit (.obj b)))) ∧
    (∀ fb, h.instM b "operator-" = some fb →
      evalTree h (.unNode (.un "-") (.lit (.obj b))) = fb []) ∧
    (h.instM b "operator-" = none →
      evalTree h (.unNode (.un "-") (.lit (.obj b))) =
        .error ("Operator error: " ++ ("operator" ++ "-") ++ " is not a callable on " ++
          h.display b)) := by
  have base : parseTop processedDefault
      (⟨["", " -  -", ""], [.obj 0, .obj 1]⟩ : Input ℕ) =
      .ok (⟨3, 0⟩, .binNode (.bin "-") (.lit (.obj 0))
        (.unNode (.un "-") (.lit (.obj 1)))) :=
    presEqF_sound 100 _ _ (by decide)
  have l1 := parseTop_lift (fun n => if n = 0 then a else b) processedDefault _ _ _ base
  simp only [List.map, reHole, astHole, Except.map] at l1
  norm_num at l1
  have hev : evalTree h (.unNode (.un "-") (.lit (.obj b))) =
      dispatchUn h (.un "-") (.obj b) := rfl
  refine ⟨l1, ?_, ?_⟩
  · intro fb hfb
    rw [hev]
    unfold dispatchUn
    simp only [opName, instLookup, show ("operator" ++ "-" : String) = "operator-" from rfl, hfb]
  · intro hnone
    rw [hev]
    unfold dispatchUn
    simp only [opName, instLookup, show ("operator" ++ "-" : String) = "operator-" from rfl,
      hnone, toErrorDisplay, toErrorDisplayF]

/-- Claim C7, witness: with `hostUn` (where `A` exposes `operator-` returning
its argument array and `B` exposes nothing), `A - -B`-style parse holds and
the unary node on `A` evaluates to the empty argument array, while on `B` it
raises the OperatorError naming `B`. -/
theorem C7_witness :
    parseTop processedDefault ⟨["", " -  -", ""], [.obj DemoObj.A, .obj DemoObj.B]⟩ =
      .ok (⟨3, 0⟩, .binNode (.bin "-") (.lit (.obj .A))
        (.unNode (.un "-") (.lit (.obj .B)))) ∧
    evalTree hostUn (.unNode (.un "-") (.lit (.obj .A))) = .ok (.arr []) ∧
    evalTree hostUn (.unNode (.un "-") (.lit (.obj .B))) =
      .error ("Operator error: " ++ ("operator" ++ "-") ++ " is not a callable on " ++
        hostUn.display .B) := by
  obtain ⟨hp, -, hnone⟩ := C7_theorem hostUn DemoObj.A DemoObj.B
  obtain ⟨-, hsome, -⟩ := C7_theorem hostUn DemoObj.B DemoObj.A
  exact ⟨hp, hsome (fun args => .ok (.arr args)) rfl, hnone rfl⟩

/-- Claim C9: end of input is the same lexer token as a hole whose value is
`undefined` (a literal token with `undefined` payload), so the two are
indistinguishable: an invocation whose expression is a single `undefined` hole
raises `Syntax error: expected value` rather than returning `undefined`; an
`undefined` hole in operand position fails the parse the same way; and an
`undefined` hole where a binary operator would be expected silently terminates
the parse, the preceding value being returned. -/
theorem C9_theorem {ω : Type} (h : Host ω) (a : ω) :
    lex (ω := ω) processedDefault ⟨[""], []⟩ ⟨0, 0⟩ = .ok (⟨0, 0⟩, .lit .undefined) ∧
    lex (ω := ω) processedDefault ⟨["", ""], [.undefined]⟩ ⟨0, 0⟩ = .ok (⟨0, 0⟩, .lit .undefined) ∧
    runTemplate defaultOps h ["", ""] [.undefined] = .error "Syntax error: expected value" ∧
    runTemplate defaultOps h ["", " + ", ""] [.obj a, .undefined] =
      .error "Syntax error: expected value" ∧
    runTemplate defaultOps h ["", " ", ""] [.obj a, .undefined] = .ok (.obj a) := by
  have base1 : parseTop processedDefault (⟨["", ""], [.undefined]⟩ : Input Empty) =
      .error "Syntax error: expected value" := presEqF_sound 100 _ _ (by decide)
  have base2 : parseTop processedDefault (⟨["", " + ", ""], [.obj 0, .undefined]⟩ : Input ℕ) =
      .error "Syntax error: expected value" := presEqF_sound 100 _ _ (by decide)
  have base3 : parseTop processedDefault (⟨["", " ", ""], [.obj 0, .undefined]⟩ : Input ℕ) =
      .ok (⟨3, 0⟩, .lit (.obj 0)) := presEqF_sound 100 _ _ (by decide)
  have l1 := parseTop_lift (fun x : Empty => (x.elim : ω)) processedDefault _ _ _ base1
  have l2 := parseTop_lift (fun _ : ℕ => a) processedDefault _ _ _ base2
  have l3 := parseTop_lift (fun _ : ℕ => a) processedDefault _ _ _ base3
  simp only [List.map, reHole, astHole, Except.map] at l1 l2 l3
  refine ⟨rfl, rfl, ?_, ?_, ?_⟩
  · rw [runTemplate_run defaultOps processedDefault h _ _ processOps_default, l1]
    rfl
  · rw [runTemplate_run defaultOps processedDefault h _ _ processOps_default, l2]
    rfl
  · rw [runTemplate_run defaultOps processedDefault h _ _ processOps_default, l3]
    rfl

/-- Claim C10: the parser never checks that the whole input was consumed.
After a bracket-call form the close symbol is left unconsumed, so a binary
operation following `M[i]` is silently ignored: `M[i] + 2` parses to exactly
the tree of `M[i]` (stopping at the unconsumed `]`) and the two templates
evaluate identically under every host; a stray `)` after a value is likewise
ignored and the parsed prefix evaluated. -/
theorem C10_theorem {ω : Type} (h : Host ω) (m i a : ω) :
    parseTop processedDefault ⟨["", "[", "] + 2"], [.obj m, .obj i]⟩ =
      .ok (⟨2, 0⟩, .callNode (.fn "[" "]") (.obj m) [.lit (.obj i)]) ∧
    parseTop processedDefault ⟨["", "[", "]"], [.obj m, .obj i]⟩ =
      .ok (⟨2, 0⟩, .callNode (.fn "[" "]") (.obj m) [.lit (.obj i)]) ∧
    runTemplate defaultOps h ["", "[", "] + 2"] [.obj m, .obj i] =
      runTemplate defaultOps h ["", "[", "]"] [.obj m, .obj i] ∧
    parseTop processedDefault ⟨["", " ) + 5"], [.obj a]⟩ = .ok (⟨1, 1⟩, .lit (.obj a)) ∧
    runTemplate defaultOps h ["", " ) + 5"] [.obj a] = .ok (.obj a) := by
  have base1 : parseTop processedDefault (⟨["", "[", "] + 2"], [.obj 0, .obj 1]⟩ : Input ℕ) =
      .ok (⟨2, 0⟩, .callNode (.fn "[" "]") (.obj 0) [.lit (.obj 1)]) :=
    presEqF_sound 100 _ _ (by decide)
  have base2 : parseTop processedDefault (⟨["", "[", "]"], [.obj 0, .obj 1]⟩ : Input ℕ) =
      .ok (⟨2, 0⟩, .callNode (.fn "[" "]") (.obj 0) [.lit (.obj 1)]) :=
    presEqF_sound 100 _ _ (by decide)
  have base3 : parseTop processedDefault (⟨["", " ) + 5"], [.obj 0]⟩ : Input ℕ) =
      .ok (⟨1, 1⟩, .lit (.obj 0)) := presEqF_sound 100 _ _ (by decide)
  have l1 := parseTop_lift (fun n : ℕ => if n = 0 then m else i) processedDefault _ _ _ base1
  have l2 := parseTop_lift (fun n : ℕ => if n = 0 then m else i) processedDefault _ _ _ base2
  have l3 := parseTop_lift (fun _ : ℕ => a) processedDefault _ _ _ base3
  simp only [List.map, reHole, astHole, astHoleList, Except.map] at l1 l2 l3
  norm_num at l1 l2
  refine ⟨l1, l2, ?_, l3, ?_⟩
  · rw [runTemplate_run defaultOps processedDefault h _ _ processOps_default,
        runTemplate_run defaultOps processedDefault h _ _ processOps_default, l1, l2]
  · rw [runTemplate_run defaultOps processedDefault h _ _ processOps_default, l3]
    rfl

/-- Claim C8, counterexample: inside `M[...]`, a token after an argument that
is neither the separator `','` nor the close symbol does not always fail with
a syntax error as the claim states: a `'('` token (and likewise a unary-tagged
token) re-enters the argument loop without a separator, so
`M[(1) (2)]` parses successfully to a two-argument call. -/
theorem C8_counterexample :
    parseTop processedDefault (⟨["", "[(", ") (", ")]"], [.obj (0 : ℕ), .num 1, .num 2]⟩) =
      .ok (⟨3, 1⟩, .callNode (.fn "[" "]") (.obj 0) [.lit (.num 1), .lit (.num 2)]) :=
  presEqF_sound 100 _ _ (by decide)

/-- Claim C8, amended: `M[i, j]` parses to a call node whose arguments are
`(i, j)` in order and evaluation invokes `M`'s instance `operator[]` with
those two arguments; a zero-argument `F()` is legal (the close symbol appears
immediately) and invokes with an empty argument list; after an argument, a
token that is neither `','` nor the close symbol fails with the syntax error
naming the expected tokens — unless it is `'('` or tagged unary, in which case
the parser continues the argument list without a separator (as the
counterexample input shows, parsing `M[(i) (j)]` into a two-argument call). -/
theorem C8_theorem {ω : Type} (h : Host ω) (m i j : ω) :
    parseTop processedDefault ⟨["", "[", ", ", "]"], [.obj m, .obj i, .obj j]⟩ =
      .ok (⟨3, 0⟩, .callNode (.fn "[" "]") (.obj m) [.lit (.obj i), .lit (.obj j)]) ∧
    (∀ fc, h.instM m "operator[]" = some fc →
      runTemplate defaultOps h ["", "[", ", ", "]"] [.obj m, .obj i, .obj j] =
        fc [.obj i, .obj j]) ∧
    parseTop processedDefault ⟨["", "()"], [.obj m]⟩ =
      .ok (⟨1, 1⟩, .callNode (.fn "(" ")") (.obj m) []) ∧
    (∀ fc, h.instM m "operator()" = some fc →
      runTemplate defaultOps h ["", "()"] [.obj m] = fc []) ∧
    parseTop processedDefault ⟨["", "[", " )]"], [.obj m, .obj i]⟩ =
      .error "Syntax error: expected either ',' or ']', got ')'" ∧
    parseTop processedDefault ⟨["", "[(", ") (", ")]"], [.obj m, .obj i, .obj j]⟩ =
      .ok (⟨3, 1⟩, .callNode (.fn "[" "]") (.obj m) [.lit (.obj i), .lit (.obj j)]) := by
  have base1 : parseTop processedDefault
      (⟨["", "[", ", ", "]"], [.obj 0, .obj 1, .obj 2]⟩ : Input ℕ) =
      .ok (⟨3, 0⟩, .callNode (.fn "[" "]") (.obj 0) [.lit (.obj 1), .lit (.obj 2)]) :=
    presEqF_sound 100 _ _ (by decide)
  have base2 : parseTop processedDefault (⟨["", "()"], [.obj 0]⟩ : Input ℕ) =
      .ok (⟨1, 1⟩, .callNode (.fn "(" ")") (.obj 0) []) :=
    presEqF_sound 100 _ _ (by decide)
  have base3 : parseTop processedDefault (⟨["", "[", " )]"], [.obj 0, .obj 1]⟩ : Input ℕ) =
      .error "Syntax error: expected either ',' or ']', got ')'" :=
    presEqF_sound 100 _ _ (by decide)
  have base4 : parseTop processedDefault
      (⟨["", "[(", ") (", ")]"], [.obj 0, .obj 1, .obj 2]⟩ : Input ℕ) =
      .ok (⟨3, 1⟩, .callNode (.fn "[" "]") (.obj 0) [.lit (.obj 1), .lit (.obj 2)]) :=
    presEqF_sound 100 _ _ (by decide)
  have f3 : ℕ → ω := fun n => if n = 0 then m else if n = 1 then i else j
  have l1 := parseTop_lift (fun n : ℕ => if n = 0 then m else if n = 1 then i else j)
    processedDefault _ _ _ base1
  have l2 := parseTop_lift (fun _ : ℕ => m) processedDefault _ _ _ base2
  have l3 := parseTop_lift (fun n : ℕ => if n = 0 then m else i)
    processedDefault _ _ _ base3
  have l4 := parseTop_lift (fun n : ℕ => if n = 0 then m else if n = 1 then i else j)
    processedDefault _ _ _ base4
  simp only [List.map, reHole, astHole, astHoleList, Except.map] at l1 l2 l3 l4
  norm_num at l1 l2 l4
  refine ⟨l1, ?_, l2, ?_, l3, l4⟩
  · intro fc hfc
    rw [runTemplate_run defaultOps processedDefault h _ _ processOps_default, l1]
    have hev : evalTree h (.callNode (.fn "[" "]") (.obj m)
        [.lit (.obj i), .lit (.obj j)]) =
        dispatchCall h (.fn "[" "]") (.obj m) [.obj i, .obj j] := rfl
    show evalTree h (.callNode (.fn "[" "]") (.obj m) [.lit (.obj i), .lit (.obj j)]) = _
    rw [hev]
    unfold dispatchCall
    simp only [opName, instLookup,
      show ("operator" ++ ("[" ++ "]") : String) = "operator[]" from rfl, hfc]
  · intro fc hfc
    rw [runTemplate_run defaultOps processedDefault h _ _ processOps_default, l2]
    have hev : evalTree h (.callNode (.fn "(" ")") (.obj m) []) =
        dispatchCall h (.fn "(" ")") (.obj m) [] := rfl
    show evalTree h (.callNode (.fn "(" ")") (.obj m) []) = _
    rw [hev]
    unfold dispatchCall
    simp only [opName, instLookup,
      show ("operator" ++ ("(" ++ ")") : String) = "operator()" from rfl, hfc]

/-- Claim C8, witness: with `hostCall` (whose `A` exposes `operator[]` and
`operator()` returning their argument lists), `A[B, B]` evaluates to the array
`[B, B]` and `A()` to the empty array. -/
theorem C8_witness :
    runTemplate defaultOps hostCall ["", "[", ", ", "]"]
      [.obj DemoObj.A, .obj .B, .obj .B] = .ok (.arr [.obj .B, .obj .B]) ∧
    runTemplate defaultOps hostCall ["", "()"] [.obj DemoObj.A] = .ok (.arr []) := by
  obtain ⟨-, hcall, -, hnil, -, -⟩ := C8_theorem hostCall DemoObj.A DemoObj.B DemoObj.B
  exact ⟨hcall (fun args => .ok (.arr args)) rfl, hnil (fun args => .ok (.arr args)) rfl⟩

theorem wsCount_drop_wsCount : ∀ l : List Char, wsCount (l.drop (wsCount l)) = 0 := by
  intro l
  induction l with
  | nil => rfl
  | cons c rest ih =>
    by_cases hc : isJsSpace c = true
    · rw [show wsCount (c :: rest) = wsCount rest + 1 by simp [wsCount, hc]]
      simpa using ih
    · rw [show wsCount (c :: rest) = 0 by simp [wsCount, hc]]
      simp [wsCount, hc]

theorem lex_skip {ω : Type} (ops : List (List OpSpec)) (inp : Input ω) (i ci : ℕ)
    (frag : String) (hs : inp.strs[i]? = some frag) :
    lex ops inp ⟨i, ci + wsCount (frag.data.drop ci)⟩ = lex ops inp ⟨i, ci⟩ := by
  unfold lex
  rw [hs]
  dsimp only
  have hw : wsCount (frag.data.drop (ci + wsCount (frag.data.drop ci))) = 0 := by
    have h0 := wsCount_drop_wsCount (frag.data.drop ci)
    rw [List.drop_drop] at h0
    exact h0
  rw [hw, Nat.add_zero]

theorem lex_ok_state {ω : Type} (ops : List (List OpSpec)) (inp : Input ω)
    (st st' : Cursor) (tok : Tok ω) (h : lex ops inp st = .ok (st', tok)) :
    (inp.strs[st.strIdx]? = none ∧ st' = st) ∨
    (∃ frag, inp.strs[st.strIdx]? = some frag ∧
      st' = ⟨st.strIdx, st.charIdx + wsCount (frag.data.drop st.charIdx)⟩) := by
  unfold lex at h
  cases hs : inp.strs[st.strIdx]? with
  | none =>
    rw [hs] at h
    have := Except.ok.inj h
    exact .inl ⟨rfl, (congrArg Prod.fst this).symm⟩
  | some frag =>
    rw [hs] at h
    refine .inr ⟨frag, rfl, ?_⟩
    dsimp only at h
    cases hd : frag.data.drop (st.charIdx + wsCount (frag.data.drop st.charIdx)) with
    | nil =>
      rw [hd] at h
      exact (congrArg Prod.fst (Except.ok.inj h)).symm
    | cons c rest =>
      rw [hd] at h
      dsimp only at h
      split at h
      · exact (congrArg Prod.fst (Except.ok.inj h)).symm
      · split at h
        · split at h
          · cases h
          · cases hsc : strScan c rest with
            | error e => rw [hsc] at h; cases h
            | ok s =>
              rw [hsc] at h
              simp only [Except.map] at h
              exact (congrArg Prod.fst (Except.ok.inj h)).symm
        · split at h
          · exact (congrArg Prod.fst (Except.ok.inj h)).symm
          · cases h

theorem lex_peek_idem {ω : Type} (ops : List (List OpSpec)) (inp : Input ω)
    (st st' : Cursor) (tok : Tok ω) (h : lex ops inp st = .ok (st', tok)) :
    lex ops inp st' = .ok (st', tok) := by
  rcases lex_ok_state ops inp st st' tok h with ⟨hs, rfl⟩ | ⟨frag, hs, rfl⟩
  · exact h
  · calc lex ops inp ⟨st.strIdx, st.charIdx + wsCount (frag.data.drop st.charIdx)⟩
        = lex ops inp ⟨st.strIdx, st.charIdx⟩ := lex_skip ops inp _ _ frag hs
      _ = .ok (⟨st.strIdx, st.charIdx + wsCount (frag.data.drop st.charIdx)⟩, tok) := h

theorem natToRevDigits_eq : ∀ (fuel n : ℕ), n ≤ fuel →
    natToRevDigits fuel n = (Nat.digits 10 n).map digitChar := by
  intro fuel
  induction fuel with
  | zero =>
    intro n hn
    interval_cases n
    simp [natToRevDigits]
  | succ fuel ih =>
    intro n hn
    cases n with
    | zero => simp [natToRevDigits]
    | succ m =>
      rw [show natToRevDigits (fuel + 1) (m + 1) =
        digitChar ((m + 1) % 10) :: natToRevDigits fuel ((m + 1) / 10) from rfl]
      rw [Nat.digits_def' (by norm_num : (1 : ℕ) < 10) (Nat.succ_pos m)]
      rw [List.map_cons]
      congr 1
      have hlt : (m + 1) / 10 < m + 1 := Nat.div_lt_self (Nat.succ_pos m) (by norm_num)
      exact ih _ (by omega)

theorem natFromDigits_ofDigits : ∀ (l : List Char) (a : ℕ),
    l.foldl (fun a c => 10 * a + digitVal c) a =
      a * 10 ^ l.length + Nat.ofDigits 10 ((l.map digitVal).reverse) := by
  intro l
  induction l with
  | nil => intro a; simp [Nat.ofDigits]
  | cons c rest ih =>
    intro a
    rw [List.foldl_cons, ih (10 * a + digitVal c)]
    simp only [List.map_cons, List.reverse_cons, Nat.ofDigits_append, List.length_reverse,
      List.length_map, List.length_cons]
    simp [Nat.ofDigits]
    ring

theorem digit_toNat_bounds (c : Char) (hc : c.isDigit = true) :
    48 ≤ c.toNat ∧ c.toNat ≤ 57 := by
  simp only [Char.isDigit, Bool.and_eq_true, decide_eq_true_eq] at hc
  obtain ⟨h1, h2⟩ := hc
  simp only [Char.le_def, UInt32.le_def, BitVec.le_def] at h1 h2
  exact ⟨h1, h2⟩

theorem digitChar_digitVal (c : Char) (hc : c.isDigit = true) :
    digitChar (digitVal c) = c := by
  obtain ⟨h1, h2⟩ := digit_toNat_bounds c hc
  unfold digitChar digitVal
  rw [show 48 + (c.toNat - 48) = c.toNat by omega]
  exact Char.ofNat_toNat c

theorem digitVal_lt_ten (c : Char) (hc : c.isDigit = true) : digitVal c < 10 := by
  obtain ⟨h1, h2⟩ := digit_toNat_bounds c hc
  unfold digitVal
  omega

theorem breakDot_no_dot : ∀ l : List Char, (∀ c ∈ l, c ≠ '.') → breakDot l = (l, none) := by
  intro l
  induction l with
  | nil => intro; rfl
  | cons c rest ih =>
    intro hnd
    unfold breakDot
    rw [if_neg (hnd c (List.mem_cons_self c rest))]
    rw [ih (fun c' hc' => hnd c' (List.mem_cons_of_mem c hc'))]

/-- A canonical integer digit run — nonempty, all digits, no leading zero
unless it is exactly `0` — renders back to itself: JS
`Number(run).toString() === run`, so `next` advances by exactly the run's
length on such runs. -/
theorem canonical_run_roundtrip (run : List Char)
    (hd : ∀ c ∈ run, c.isDigit = true) (hne : run ≠ [])
    (hlead : run.head? = some '0' → run = ['0']) :
    jsRatToStringL (jsNum run) = run := by
  have hnd : ∀ c ∈ run, c ≠ '.' := by
    intro c hc hdot
    have := hd c hc
    rw [hdot] at this
    simp [Char.isDigit] at this
  have hbd : breakDot run = (run, none) := breakDot_no_dot run hnd
  have hjs : jsNum run = (natFromDigits run : ℚ) := by
    unfold jsNum
    rw [hbd]
  rw [hjs]
  set n := natFromDigits run with hn
  unfold jsRatToStringL
  have hnum : ((n : ℚ)).num.natAbs = n := by simp
  have hden : ((n : ℚ)).den = 1 := Rat.den_natCast n
  have hneg : ¬((n : ℚ) < 0) := not_lt.mpr (by positivity)
  rw [if_neg hneg, hnum, hden]
  simp only [Nat.mod_one, Nat.div_one]
  rw [show fracDigitsL 40 0 1 = [] from rfl]
  simp only [List.isEmpty_nil, if_true]
  rw [List.nil_append, List.append_nil]
  -- it remains to show natToDigitsL n = run
  have hofd : n = Nat.ofDigits 10 ((run.map digitVal).reverse) := by
    rw [hn]
    unfold natFromDigits
    rw [natFromDigits_ofDigits run 0]
    simp
  by_cases h0 : run = ['0']
  · subst h0
    rw [show n = 0 from by rw [hofd]; rfl]
    rfl
  · have hhead : run.head? ≠ some '0' := fun hh => h0 (hlead hh)
    have hlast : ∀ hne' : ((run.map digitVal).reverse) ≠ [],
        ((run.map digitVal).reverse).getLast hne' ≠ 0 := by
      intro hne'
      rw [List.getLast_reverse]
      cases run with
      | nil => exact absurd rfl hne
      | cons c rest =>
        simp only [List.map_cons, List.head_cons]
        intro hv
        apply hhead
        have hceq : c = '0' := by
          have hcd := hd c (List.mem_cons_self c rest)
          obtain ⟨hb1, hb2⟩ := digit_toNat_bounds c hcd
          have : c.toNat = 48 := by unfold digitVal at hv; omega
          have := congrArg Char.ofNat this
          rwa [Char.ofNat_toNat] at this
        rw [hceq]
        rfl
    have hdig : Nat.digits 10 n = (run.map digitVal).reverse := by
      rw [hofd]
      exact Nat.digits_ofDigits 10 (by norm_num) _
        (by
          intro v hv
          rw [List.mem_reverse, List.mem_map] at hv
          obtain ⟨c, hc, rfl⟩ := hv
          exact digitVal_lt_ten c (hd c hc))
        hlast
    have hnz : n ≠ 0 := by
      intro hz
      rw [hz] at hdig
      simp only [Nat.digits_zero] at hdig
      have : run.map digitVal = [] := by
        have := congrArg List.reverse hdig
        simpa using this.symm
      rw [List.map_eq_nil_iff] at this
      exact hne this
    unfold natToDigitsL
    rw [if_neg hnz]
    rw [natToRevDigits_eq n n le_rfl, hdig]
    rw [List.map_reverse, List.reverse_reverse, List.map_map]
    have hcg : run.map (digitChar ∘ digitVal) = run.map id :=
      List.map_congr_left (fun c hc => digitChar_digitVal c (hd c hc))
    rw [hcg, List.map_id]

theorem isNumber_not_space (c : Char) (h : isNumber c = true) : isJsSpace c = false := by
  simp only [isNumber, Bool.or_eq_true, decide_eq_true_eq] at h
  by_contra hsp
  simp only [Bool.not_eq_false, isJsSpace, Bool.or_eq_true, decide_eq_true_eq] at hsp
  rcases h with h | rfl
  · obtain ⟨h1, h2⟩ := digit_toNat_bounds c h
    rcases hsp with ((((rfl | rfl) | rfl) | rfl) | rfl) | rfl <;>
      exact absurd h1 (by decide)
  · rcases hsp with ((((h | h) | h) | h) | h) | h <;> cases h

/-- Claim C5, counterexample: peeking the numeric literal at the start of the
fragment `007` scans the three-character digit run `007`, but advancing moves
the cursor by `Number('007').toString().length = 1` ("7"), not by the
digit-run length 3 the claim states. -/
theorem C5_counterexample :
    lex (ω := Empty) processedDefault ⟨["007"], []⟩ ⟨0, 0⟩ = .ok (⟨0, 0⟩, .lit (.num 7)) ∧
    numRun "007".data = "007".data ∧
    ("007".data.length = 3) ∧
    next (ω := Empty) processedDefault ⟨["007"], []⟩ ⟨0, 0⟩ = .ok ⟨0, 1⟩ ∧
    next (ω := Empty) processedDefault ⟨["007"], []⟩ ⟨0, 0⟩ ≠ .ok ⟨0, 3⟩ := by
  have h1 : lex (ω := Empty) processedDefault ⟨["007"], []⟩ ⟨0, 0⟩ =
      .ok (⟨0, 0⟩, .lit (.num (jsNum (numRun "007".data)))) := rfl
  have h2 : jsNum (numRun "007".data) = (7 : ℚ) := by decide
  rw [h2] at h1
  have h4 : next (ω := Empty) processedDefault ⟨["007"], []⟩ ⟨0, 0⟩ = .ok ⟨0, 1⟩ := rfl
  refine ⟨h1, rfl, rfl, h4, ?_⟩
  rw [h4]
  intro hcon
  have := Except.ok.inj hcon
  cases this

/-- Claim C5, amended: the lexer's peek is idempotent (re-peeking from the
returned cursor yields the same token), and advancing from a peeked state
moves the cursor by exactly: the matched symbol's length for an operator
token; content length plus 2 for a scanned string literal; the length of the
canonical rendering `Number(run).toString()` of the parsed value — not the
digit-run length — for a numeric literal (the two agree exactly on canonical
integer runs, e.g. without leading zeros); and a jump to position 0 of the
next fragment at end of the current fragment (the hole case). The numeric
token's value is `Number` of the maximal scanned digit run. -/
theorem C5_theorem :
    (∀ (ω : Type) (ops : List (List OpSpec)) (inp : Input ω) (st st' : Cursor) (tok : Tok ω),
      lex ops inp st = .ok (st', tok) → lex ops inp st' = .ok (st', tok)) ∧
    (∀ (ω : Type) (ops : List (List OpSpec)) (inp : Input ω) (st : Cursor) (frag : String),
      inp.strs[st.strIdx]? = some frag → frag.length ≤ st.charIdx →
      next ops inp st = .ok ⟨st.strIdx + 1, 0⟩) ∧
    (∀ (ω : Type) (ops : List (List OpSpec)) (inp : Input ω) (st : Cursor) (frag : String)
      (sp : OpSpec) (raw : String),
      inp.strs[st.strIdx]? = some frag → st.charIdx < frag.length →
      lex ops inp st = .ok (st, .opTok sp raw) →
      next ops inp st = .ok ⟨st.strIdx, st.charIdx + raw.length⟩) ∧
    (∀ (ω : Type) (ops : List (List OpSpec)) (inp : Input ω) (st : Cursor) (frag : String)
      (s : String),
      inp.strs[st.strIdx]? = some frag → st.charIdx < frag.length →
      lex ops inp st = .ok (st, .lit (.str s)) →
      next ops inp st = .ok ⟨st.strIdx, st.charIdx + (s.length + 2)⟩) ∧
    (∀ (ω : Type) (ops : List (List OpSpec)) (inp : Input ω) (st : Cursor) (frag : String)
      (q : ℚ),
      inp.strs[st.strIdx]? = some frag → st.charIdx < frag.length →
      lex ops inp st = .ok (st, .lit (.num q)) →
      next ops inp st = .ok ⟨st.strIdx, st.charIdx + (jsRatToString q).length⟩) ∧
    (∀ (ω : Type) (ops : List (List OpSpec)) (inp : Input ω) (st : Cursor) (frag : String)
      (c : Char) (rest : List Char),
      inp.strs[st.strIdx]? = some frag →
      frag.data.drop st.charIdx = c :: rest →
      matchOp ops.flatten (c :: rest) = none →
      c ≠ '\'' → c ≠ '"' → isNumber c = true →
      lex ops inp st = .ok (st, .lit (.num (jsNum (numRun (c :: rest)))))) ∧
    (∀ run : List Char, (∀ c ∈ run, c.isDigit = true) → run ≠ [] →
      (run.head? = some '0' → run = ['0']) →
      (jsRatToString (jsNum run)).length = run.length) := by
  refine ⟨fun ω ops inp st st' tok h => lex_peek_idem ops inp st st' tok h,
    ?_, ?_, ?_, ?_, ?_, ?_⟩
  · intro ω ops inp st frag hs hle
    unfold next
    rw [hs]
    dsimp only
    rw [if_pos hle]
  · intro ω ops inp st frag sp raw hs hlt hlex
    unfold next
    rw [hs]
    dsimp only
    rw [if_neg (not_le.mpr hlt)]
    rw [hlex, bind_ok]
  · intro ω ops inp st frag s hs hlt hlex
    unfold next
    rw [hs]
    dsimp only
    rw [if_neg (not_le.mpr hlt)]
    rw [hlex, bind_ok]
  · intro ω ops inp st frag q hs hlt hlex
    unfold next
    rw [hs]
    dsimp only
    rw [if_neg (not_le.mpr hlt)]
    rw [hlex, bind_ok]
    dsimp only [jsToStrLen]
  · intro ω ops inp st frag c rest hs hd hm hq1 hq2 hnum
    unfold lex
    rw [hs]
    dsimp only
    have hw : wsCount (frag.data.drop st.charIdx) = 0 := by
      rw [hd]
      simp [wsCount, isNumber_not_space c hnum]
    rw [hw, Nat.add_zero, hd]
    dsimp only
    rw [hm]
    rw [if_neg (by simp [hq1, hq2])]
    rw [if_pos hnum]
  · intro run hd hne hlead
    have h := canonical_run_roundtrip run hd hne hlead
    show (jsRatToStringL (jsNum run)).length = run.length
    rw [h]

/-- Claim C5, witness: on the canonical run `12` the numeric token's advance
width, the canonical-rendering length, and the digit-run length all agree,
instantiating the amended theorem's numeric-width and round-trip conjuncts. -/
theorem C5_witness :
    next (ω := Empty) processedDefault ⟨["12"], []⟩ ⟨0, 0⟩ = .ok ⟨0, 2⟩ ∧
    (jsRatToString (jsNum "12".data)).length = "12".data.length := by
  have hnum := C5_theorem.2.2.2.2.1 Empty processedDefault ⟨["12"], []⟩ ⟨0, 0⟩ "12"
    (jsNum (numRun "12".data)) rfl (by decide) rfl
  have hrt := C5_theorem.2.2.2.2.2.2 "12".data (by decide) (by decide) (by decide)
  exact ⟨hnum.trans (by rfl), hrt⟩
